import Mathlib

/-!
Shallow embedding of the libgwyfile GWY container core
(src/gwydb/libgwyfile/gwyfile.c) and verification of its specification.

Modelling conventions:
* A C stdio stream is a `List Nat` of byte values; reading consumes from the
  front.  A short `fread` on a list stream corresponds to end-of-file, so
  `gwyfile_set_error_fread` always takes its `feof` branch (real I/O errors,
  `errno` and `ENOMEM` have no counterpart on a pure list stream).
* `size_t`/`uint32_t` quantities are `Nat`; C guards every subtraction with a
  comparison, which we mirror, so natural subtraction is exact where it is
  reachable.  Where C wraps (the 32-bit length prefix written by
  `gwyfile_fwrite_le`, the `size_t` threshold in `gwyfile_object_fwrite`) we
  take the remainder explicitly.
* `double` values are kept as their 64-bit IEEE bit patterns (a `Nat`), which
  is exactly what the codec moves around and what the conformance checker
  inspects (it only tests the biased-exponent bits).
* C `assert` aborts the process; the two asserts reachable from decoding are
  modelled by the distinguished error code `assertionViolated`.
-/

set_option linter.unusedVariables false

namespace Gwyfile

/-- Error domains, enum GwyfileErrorDomain of gwyfile.h. -/
inductive GwyfileErrorDomain where
  | system
  | data
  | validity
  | warning
deriving DecidableEq

/-- Error codes of the DATA domain, enum GwyfileErrorCode of gwyfile.h,
plus `assertionViolated` standing for a C `assert` abort. -/
inductive GwyfileErrorCode where
  | magic
  | itemType
  | confinement
  | arraySize
  | duplicateName
  | longString
  | objectSize
  | objectName
  | missingItem
  | tooDeepNesting
  | assertionViolated
  | outOfFuel
deriving DecidableEq

/-- An error record: domain plus code (messages are not modelled). -/
structure GwyfileError where
  domain : GwyfileErrorDomain
  code : GwyfileErrorCode
deriving DecidableEq

/-- Error produced by `gwyfile_set_error_overrun`: CONFINEMENT in domain DATA. -/
def errOverrun : GwyfileError := ⟨.data, .confinement⟩

/-- Error produced by `gwyfile_set_error_fread` when the stream hit EOF:
CONFINEMENT in domain DATA.  On a list stream a short read is always EOF. -/
def errFreadEof : GwyfileError := ⟨.data, .confinement⟩

/-- Little-endian value of a byte list (first byte least significant),
as assembled by `gwyfile_fread_le` on a little-endian host. -/
def leNat : List Nat → Nat
  | [] => 0
  | b :: r => b + 256 * leNat r

/-- Little-endian byte encoding of the low `k` bytes of `v`, as emitted by
`gwyfile_fwrite_le` on a little-endian host. -/
def leBytes : Nat → Nat → List Nat
  | 0, _ => []
  | k + 1, v => v % 256 :: leBytes k (v / 256)

/-- Model of `fread(buf, 1, k, stream)` whose result the caller compares with
`k` (as `gwyfile_fread_le` does): a short read is EOF and reported as
CONFINEMENT by `gwyfile_set_error_fread`. -/
def freadBytes (stream : List Nat) (k : Nat) :
    Except GwyfileError (List Nat × List Nat) :=
  if stream.length < k then .error errFreadEof
  else .ok (stream.take k, stream.drop k)

/-- gwyfile_check_size: bounded-reading guard.  Fails with CONFINEMENT when
fewer than `size` bytes remain in the budget, otherwise decrements it. -/
def gwyfile_check_size (max_size size : Nat) : Except GwyfileError Nat :=
  if max_size < size then .error errOverrun
  else .ok (max_size - size)

/-- Loop body of `gwyfile_fread_string`: reads byte by byte until the nul,
tracking `len` (bytes stored so far) and the buffer capacity `size`; the
capacity only matters through the overrun and LONG_STRING tests performed
when `len == size`. -/
def gwyfile_fread_string_loop (stream : List Nat) (max_size len size : Nat)
    (acc : List Nat) : Except GwyfileError (List Nat × List Nat × Nat) :=
  match stream with
  | [] => .error errFreadEof
  | c :: rest =>
    if len = size then
      if len = max_size then .error errOverrun
      else if 0x80000000 ≤ size then .error ⟨.data, .longString⟩
      else
        if c = 0 then .ok (acc.reverse, rest, max_size - (len + 1))
        else
          gwyfile_fread_string_loop rest max_size (len + 1)
            (min (max (2 * size) 16) max_size) (c :: acc)
    else
      if c = 0 then .ok (acc.reverse, rest, max_size - (len + 1))
      else gwyfile_fread_string_loop rest max_size (len + 1) size (c :: acc)

/-- gwyfile_fread_string: reads a nul-terminated string within the budget
`max_size`.  Returns the bytes before the nul, the rest of the stream and the
budget decreased by the bytes consumed (nul included). -/
def gwyfile_fread_string (stream : List Nat) (max_size : Nat) :
    Except GwyfileError (List Nat × List Nat × Nat) :=
  if max_size = 0 then .error errOverrun
  else gwyfile_fread_string_loop stream max_size 0 0 []

theorem gwyfile_fread_string_loop_ok (stream : List Nat)
    (max_size len size : Nat) (acc nm rest : List Nat) (ms' : Nat)
    (h : gwyfile_fread_string_loop stream max_size len size acc =
      .ok (nm, rest, ms')) :
    ∃ l, ms' = max_size - (l + 1) ∧ rest.length < stream.length := by
  induction stream generalizing len size acc with
  | nil => simp [gwyfile_fread_string_loop] at h
  | cons c cs ih =>
    rw [gwyfile_fread_string_loop] at h
    by_cases h1 : len = size <;> simp only [h1, if_true, if_false, if_pos,
      if_neg] at h
    · split at h
      · exact absurd h (by simp)
      · split at h
        · exact absurd h (by simp)
        · split at h
          · simp only [Except.ok.injEq, Prod.mk.injEq] at h
            obtain ⟨-, h2, h3⟩ := h
            exact ⟨_, h3.symm, by simp [← h2]⟩
          · obtain ⟨l, hl, hr⟩ := ih _ _ _ h
            exact ⟨l, hl, Nat.lt_succ_of_lt hr⟩
    · split at h
      · simp only [Except.ok.injEq, Prod.mk.injEq] at h
        obtain ⟨-, h2, h3⟩ := h
        exact ⟨_, h3.symm, by simp [← h2]⟩
      · obtain ⟨l, hl, hr⟩ := ih _ _ _ h
        exact ⟨l, hl, Nat.lt_succ_of_lt hr⟩

/-- A successful `gwyfile_fread_string` strictly decreases the budget
(the nul byte alone costs one) and strictly shortens the stream. -/
theorem gwyfile_fread_string_ok (stream : List Nat) (max_size : Nat)
    (nm rest : List Nat) (ms' : Nat)
    (h : gwyfile_fread_string stream max_size = .ok (nm, rest, ms')) :
    ms' < max_size ∧ rest.length < stream.length := by
  rw [gwyfile_fread_string] at h
  split at h
  · exact absurd h (by simp)
  · obtain ⟨l, hl, hr⟩ := gwyfile_fread_string_loop_ok _ _ _ _ _ _ _ _ h
    exact ⟨by omega, hr⟩

theorem gwyfile_check_size_ok (max_size size r : Nat)
    (h : gwyfile_check_size max_size size = .ok r) :
    r + size = max_size := by
  rw [gwyfile_check_size] at h
  split at h
  · exact absurd h (by simp)
  · simp only [Except.ok.injEq] at h
    omega

/-!
In-memory tree model.  `GwyfileItem.mk name data_size data` mirrors struct
GwyfileItem: the byte string `name` (nul-free, stored without its
terminator), the cached `data_size` field, and the tagged union value whose
constructor plays the role of the `type` tag.  `GwyfileObject.mk name
data_size items` mirrors struct GwyfileObject.  `name_len` is always
`strlen(name)` in the source and is represented by `name.length`;
`array_length` always equals the element count of the stored buffer and is
represented by the list length.  The `owner` back pointer and `data_owned`
flag govern only memory management and are not represented: attachment is
list membership.
-/

mutual

inductive GwyfileObject where
  | mk (name : List Nat) (data_size : Nat) (items : List GwyfileItem)

inductive GwyfileItem where
  | mk (name : List Nat) (data_size : Nat) (data : GwyfileItemData)

inductive GwyfileItemData where
  | bool (v : Bool)
  | char (v : Nat)
  | int32 (v : Nat)
  | int64 (v : Nat)
  | double (v : Nat)
  | string (v : List Nat)
  | object (o : GwyfileObject)
  | charArray (v : List Nat)
  | int32Array (v : List Nat)
  | int64Array (v : List Nat)
  | doubleArray (v : List Nat)
  | stringArray (v : List (List Nat))
  | objectArray (v : List GwyfileObject)

end

def GwyfileObject.name : GwyfileObject → List Nat
  | .mk n _ _ => n

def GwyfileObject.data_size : GwyfileObject → Nat
  | .mk _ ds _ => ds

def GwyfileObject.items : GwyfileObject → List GwyfileItem
  | .mk _ _ its => its

def GwyfileItem.name : GwyfileItem → List Nat
  | .mk n _ _ => n

def GwyfileItem.data_size : GwyfileItem → Nat
  | .mk _ ds _ => ds

def GwyfileItem.data : GwyfileItem → GwyfileItemData
  | .mk _ _ d => d

/-- The single-byte type tag of an item value (the `type` field). -/
def GwyfileItemData.typeTag : GwyfileItemData → Nat
  | .bool _ => 0x62
  | .char _ => 0x63
  | .int32 _ => 0x69
  | .int64 _ => 0x71
  | .double _ => 0x64
  | .string _ => 0x73
  | .object _ => 0x6f
  | .charArray _ => 0x43
  | .int32Array _ => 0x49
  | .int64Array _ => 0x51
  | .doubleArray _ => 0x44
  | .stringArray _ => 0x53
  | .objectArray _ => 0x4f

/-- gwyfile_item_size on a known-valid item:
`1 + item->name_len+1 + item->data_size`. -/
def GwyfileItem.size : GwyfileItem → Nat
  | .mk n ds _ => 1 + n.length + 1 + ds

/-- gwyfile_object_size:
`object->name_len+1 + sizeof(uint32_t) + object->data_size`. -/
def GwyfileObject.size : GwyfileObject → Nat
  | .mk n ds _ => n.length + 1 + 4 + ds

theorem item_size_pos (it : GwyfileItem) : 0 < it.size := by
  cases it with
  | mk n ds d => simp [GwyfileItem.size]

theorem object_size_pos (o : GwyfileObject) : 5 ≤ o.size := by
  cases o with
  | mk n ds its => simp [GwyfileObject.size]; omega

/-- Sum of `gwyfile_item_size` over an item list (reads only cached sizes). -/
def itemsSizeSum : List GwyfileItem → Nat
  | [] => 0
  | it :: rest => it.size + itemsSizeSum rest

/-- Sum of `gwyfile_object_size` over an object list (reads only cached
sizes). -/
def objectsSizeSum : List GwyfileObject → Nat
  | [] => 0
  | o :: rest => o.size + objectsSizeSum rest

/-- Sum of `strlen(s)+1` over a string list. -/
def stringsSizeSum : List (List Nat) → Nat
  | [] => 0
  | s :: rest => (s.length + 1) + stringsSizeSum rest

/-!
The size-accounting invariant (spec section 3, "Size invariant"): every
cached `data_size` equals the recomputed on-wire size of the data it caches.
-/

mutual

def GwyfileObject.sizeOk : GwyfileObject → Bool
  | .mk _ ds items => (ds == itemsSizeSum items) && itemsSizeOk items

def itemsSizeOk : List GwyfileItem → Bool
  | [] => true
  | it :: rest => it.sizeOk && itemsSizeOk rest

def GwyfileItem.sizeOk : GwyfileItem → Bool
  | .mk _ ds d =>
    match d with
    | .bool _ => ds == 1
    | .char _ => ds == 1
    | .int32 _ => ds == 4
    | .int64 _ => ds == 8
    | .double _ => ds == 8
    | .string v => ds == v.length + 1
    | .object o => (ds == o.size) && o.sizeOk
    | .charArray v => ds == 4 + v.length
    | .int32Array v => ds == 4 + 4 * v.length
    | .int64Array v => ds == 4 + 8 * v.length
    | .doubleArray v => ds == 4 + 8 * v.length
    | .stringArray v => ds == 4 + stringsSizeSum v
    | .objectArray v => (ds == 4 + objectsSizeSum v) && objectsSizeOk v

def objectsSizeOk : List GwyfileObject → Bool
  | [] => true
  | o :: rest => o.sizeOk && objectsSizeOk rest

end

/-- strcmp on nul-free byte strings, as used by `gwyfile_compare_items`
(only the sign matters). -/
def strcmpList : List Nat → List Nat → Int
  | [], [] => 0
  | [], _ :: _ => -1
  | _ :: _, [] => 1
  | a :: as, b :: bs =>
    if a < b then -1 else if b < a then 1 else strcmpList as bs

theorem strcmpList_eq_zero (a b : List Nat) :
    strcmpList a b = 0 ↔ a = b := by
  induction a generalizing b with
  | nil => cases b <;> simp [strcmpList]
  | cons x xs ih =>
    cases b with
    | nil => simp [strcmpList]
    | cons y ys =>
      rw [strcmpList]
      split
      · simp only [List.cons.injEq]
        constructor
        · intro h; exact absurd h (by decide)
        · rintro ⟨h, -⟩; omega
      · split
        · simp only [List.cons.injEq]
          constructor
          · intro h; exact absurd h (by decide)
          · rintro ⟨h, -⟩; omega
        · simp only [List.cons.injEq, ih]
          constructor
          · intro h; exact ⟨by omega, h⟩
          · rintro ⟨-, h⟩; exact h

/-- Insertion of an item into a name-sorted list.  `qsort` in
`gwyfile_object_find_duplicate_item` is an unspecified comparison sort; for
pairwise-distinct names every comparison sort produces the same list, and
when names repeat the sorted object is discarded (the decode fails), so an
insertion sort is an exact model of the observable behaviour. -/
def insertByName (it : GwyfileItem) : List GwyfileItem → List GwyfileItem
  | [] => [it]
  | x :: xs =>
    if strcmpList it.name x.name ≤ 0 then it :: x :: xs
    else x :: insertByName it xs

/-- Sorting of the item array performed in place by the `qsort` call of
`gwyfile_object_find_duplicate_item`. -/
def sortItemsByName : List GwyfileItem → List GwyfileItem
  | [] => []
  | x :: xs => insertByName x (sortItemsByName xs)

/-- Adjacent-duplicate scan performed after the sort. -/
def adjacentDuplicate : List GwyfileItem → Option (List Nat)
  | [] => none
  | [_] => none
  | x :: y :: rest =>
    if x.name = y.name then some x.name
    else adjacentDuplicate (y :: rest)

/-- gwyfile_object_find_duplicate_item: sorts the item array IN PLACE by
name, then scans adjacent entries.  Returns the (possibly permuted) item
list together with the duplicated name, if any.  Note the permutation is
visible to the caller because the object's own array is sorted. -/
def gwyfile_object_find_duplicate_item (items : List GwyfileItem) :
    List GwyfileItem × Option (List Nat) :=
  if items.length < 2 then (items, none)
  else
    let sorted := sortItemsByName items
    (sorted, adjacentDuplicate sorted)

/-! Deserializer, gwyfile_object_fread_internal / gwyfile_item_fread_internal. -/

def GWYFILE_MAX_DEPTH : Nat := 200

/-- gwyfile_item_type_is_valid: membership in "bciqdsoCIQDSO" (nonzero). -/
def gwyfile_item_type_is_valid (c : Nat) : Bool :=
  c == 0x62 || c == 0x63 || c == 0x69 || c == 0x71 || c == 0x64 || c == 0x73 ||
  c == 0x6f || c == 0x43 || c == 0x49 || c == 0x51 || c == 0x44 || c == 0x53 ||
  c == 0x4f

/-- gwyfile_item_type_is_array: membership in "CIQDSO". -/
def gwyfile_item_type_is_array (c : Nat) : Bool :=
  c == 0x43 || c == 0x49 || c == 0x51 || c == 0x44 || c == 0x53 || c == 0x4f

/-- Decodes `count` little-endian values of width `w` from a byte buffer, as
`gwyfile_fread_le` fills an array on a little-endian host. -/
def readLeArray (w count : Nat) (bytes : List Nat) : List Nat :=
  match count with
  | 0 => []
  | k + 1 => leNat (bytes.take w) :: readLeArray w k (bytes.drop w)

/-- String-array payload loop of `gwyfile_item_fread_internal`: `count`
nul-terminated strings read with the shared budget threaded through. -/
def gwyfile_fread_string_array (stream : List Nat) (max_size count : Nat) :
    Except GwyfileError (List (List Nat) × List Nat × Nat) :=
  match count with
  | 0 => .ok ([], stream, max_size)
  | k + 1 =>
    match gwyfile_fread_string stream max_size with
    | .error e => .error e
    | .ok (s, rest, ms') =>
      match gwyfile_fread_string_array rest ms' k with
      | .error e => .error e
      | .ok (strs, rest', ms'') => .ok (s :: strs, rest', ms'')

mutual

/-- gwyfile_object_fread_internal: depth guard, name, 32-bit payload length,
confinement check, item loop, then the duplicate-name scan (which sorts the
item array in place).

The `fuel` argument is a termination device only: each recursive call of
the C implementation strictly decreases the lexicographic measure
(`max_size`, phase) - the budget shrinks through `gwyfile_fread_string` and
`gwyfile_check_size` before every nested call - so the recursion depth is
bounded by a small multiple of `max_size` and any fuel of at least
`4*max_size + 8` (what the public wrappers pass) is never exhausted.
Theorems about decoding are either conditioned on a successful result,
which exhausted fuel cannot produce, or evaluate concrete inputs where the
fuel is concrete and visibly sufficient. -/
def gwyfile_object_fread_internal (fuel : Nat) (stream : List Nat)
    (max_size depth : Nat) :
    Except GwyfileError (GwyfileObject × List Nat) :=
  match fuel with
  | 0 => .error ⟨.data, .outOfFuel⟩
  | fuel + 1 =>
    if GWYFILE_MAX_DEPTH ≤ depth then .error ⟨.data, .tooDeepNesting⟩
    else
      match gwyfile_fread_string stream max_size with
      | .error e => .error e
      | .ok (name, s1, ms1) =>
        match gwyfile_check_size ms1 4 with
        | .error e => .error e
        | .ok ms2 =>
          match freadBytes s1 4 with
          | .error e => .error e
          | .ok (szb, s2) =>
            let data_size := leNat szb
            if ms2 < data_size then .error errOverrun
            else
              match gwyfile_object_read_items fuel s2 data_size depth with
              | .error e => .error e
              | .ok (items, s3) =>
                match gwyfile_object_find_duplicate_item items with
                | (_, some _) => .error ⟨.data, .duplicateName⟩
                | (sorted, none) => .ok (.mk name data_size sorted, s3)
termination_by structural fuel

/-- Item loop of `gwyfile_object_fread_internal`:
`while (object->data_size < data_size)` decoding one item per round with
budget `remaining = data_size - object->data_size` at depth `depth+1`.
Overshooting the declared payload length fires the
`assert(object->data_size == data_size)` after the loop. -/
def gwyfile_object_read_items (fuel : Nat) (stream : List Nat)
    (remaining depth : Nat) :
    Except GwyfileError (List GwyfileItem × List Nat) :=
  match fuel with
  | 0 => .error ⟨.data, .outOfFuel⟩
  | fuel + 1 =>
    if remaining = 0 then .ok ([], stream)
    else
      match gwyfile_item_fread_internal fuel stream remaining (depth + 1) with
      | .error e => .error e
      | .ok (item, s') =>
        if remaining < item.size then .error ⟨.data, .assertionViolated⟩
        else
          match gwyfile_object_read_items fuel s' (remaining - item.size)
              depth with
          | .error e => .error e
          | .ok (items, s'') => .ok (item :: items, s'')
termination_by structural fuel

/-- gwyfile_item_fread_internal: name, type tag, optional array length, then
the per-type payload ladder.  Note the CHAR_ARRAY branch only tests
`fread(ca, 1, alen, stream)` for being nonzero, so a partial read succeeds
with the tail of the buffer unread (modelled as zero bytes, matching the
uninitialized malloc tail only in that decoding succeeds). -/
def gwyfile_item_fread_internal (fuel : Nat) (stream : List Nat)
    (max_size depth : Nat) :
    Except GwyfileError (GwyfileItem × List Nat) :=
  match fuel with
  | 0 => .error ⟨.data, .outOfFuel⟩
  | fuel + 1 =>
  match gwyfile_fread_string stream max_size with
  | .error e => .error e
  | .ok (name, s1, ms1) =>
    match gwyfile_check_size ms1 1 with
    | .error e => .error e
    | .ok ms2 =>
      match s1 with
      | [] => .error errFreadEof
      | c :: s2 =>
        if gwyfile_item_type_is_valid c = false then .error ⟨.data, .itemType⟩
        else if gwyfile_item_type_is_array c then
          match gwyfile_check_size ms2 4 with
          | .error e => .error e
          | .ok ms3 =>
            match freadBytes s2 4 with
            | .error e => .error e
            | .ok (ab, s3) =>
              let alen := leNat ab
              if alen = 0 then .error ⟨.data, .arraySize⟩
              else if c = 0x43 then
                match gwyfile_check_size ms3 alen with
                | .error e => .error e
                | .ok _ =>
                  match s3 with
                  | [] => .error errFreadEof
                  | _ :: _ =>
                    .ok (.mk name (4 + alen)
                      (.charArray (s3.take alen ++
                        List.replicate (alen - s3.length) 0)), s3.drop alen)
              else if c = 0x49 then
                if ms3 / 4 < alen then .error errOverrun
                else
                  match freadBytes s3 (4 * alen) with
                  | .error e => .error e
                  | .ok (bytes, s4) =>
                    .ok (.mk name (4 + 4 * alen)
                      (.int32Array (readLeArray 4 alen bytes)), s4)
              else if c = 0x51 then
                if ms3 / 8 < alen then .error errOverrun
                else
                  match freadBytes s3 (8 * alen) with
                  | .error e => .error e
                  | .ok (bytes, s4) =>
                    .ok (.mk name (4 + 8 * alen)
                      (.int64Array (readLeArray 8 alen bytes)), s4)
              else if c = 0x44 then
                if ms3 / 8 < alen then .error errOverrun
                else
                  match freadBytes s3 (8 * alen) with
                  | .error e => .error e
                  | .ok (bytes, s4) =>
                    .ok (.mk name (4 + 8 * alen)
                      (.doubleArray (readLeArray 8 alen bytes)), s4)
              else if c = 0x53 then
                if ms3 < alen then .error errOverrun
                else
                  match gwyfile_fread_string_array s3 ms3 alen with
                  | .error e => .error e
                  | .ok (strs, s4, _) =>
                    .ok (.mk name (4 + stringsSizeSum strs)
                      (.stringArray strs), s4)
              else
                if ms3 / 5 < alen then .error errOverrun
                else
                  match gwyfile_object_array_fread fuel s3 ms3 alen depth with
                  | .error e => .error e
                  | .ok (objs, s4) =>
                    .ok (.mk name (4 + objectsSizeSum objs)
                      (.objectArray objs), s4)
        else
          if c = 0x62 then
            match gwyfile_check_size ms2 1 with
            | .error e => .error e
            | .ok _ =>
              match s2 with
              | [] => .error errFreadEof
              | b :: s3 => .ok (.mk name 1 (.bool (b != 0)), s3)
          else if c = 0x63 then
            match gwyfile_check_size ms2 1 with
            | .error e => .error e
            | .ok _ =>
              match s2 with
              | [] => .error errFreadEof
              | b :: s3 => .ok (.mk name 1 (.char b), s3)
          else if c = 0x69 then
            match gwyfile_check_size ms2 4 with
            | .error e => .error e
            | .ok _ =>
              match freadBytes s2 4 with
              | .error e => .error e
              | .ok (bytes, s3) => .ok (.mk name 4 (.int32 (leNat bytes)), s3)
          else if c = 0x71 then
            match gwyfile_check_size ms2 8 with
            | .error e => .error e
            | .ok _ =>
              match freadBytes s2 8 with
              | .error e => .error e
              | .ok (bytes, s3) => .ok (.mk name 8 (.int64 (leNat bytes)), s3)
          else if c = 0x64 then
            match gwyfile_check_size ms2 8 with
            | .error e => .error e
            | .ok _ =>
              match freadBytes s2 8 with
              | .error e => .error e
              | .ok (bytes, s3) => .ok (.mk name 8 (.double (leNat bytes)), s3)
          else if c = 0x73 then
            match gwyfile_fread_string s2 ms2 with
            | .error e => .error e
            | .ok (sv, s3, _) =>
              .ok (.mk name (sv.length + 1) (.string sv), s3)
          else
            match gwyfile_object_fread_internal fuel s2 ms2 depth with
            | .error e => .error e
            | .ok (o, s3) => .ok (.mk name o.size (.object o), s3)
termination_by structural fuel

/-- Object-array payload loop of `gwyfile_item_fread_internal`: `count`
objects at the same depth, with `assert(object_size <= max_size)` and
`max_size -= object_size` after each. -/
def gwyfile_object_array_fread (fuel : Nat) (stream : List Nat)
    (max_size count depth : Nat) :
    Except GwyfileError (List GwyfileObject × List Nat) :=
  match fuel with
  | 0 => .error ⟨.data, .outOfFuel⟩
  | fuel + 1 =>
    match count with
    | 0 => .ok ([], stream)
    | k + 1 =>
      match gwyfile_object_fread_internal fuel stream max_size depth with
      | .error e => .error e
      | .ok (o, rest) =>
        if max_size < o.size then .error ⟨.data, .assertionViolated⟩
        else
          match gwyfile_object_array_fread fuel rest (max_size - o.size) k
              depth with
          | .error e => .error e
          | .ok (objs, rest') => .ok (o :: objs, rest')
termination_by structural fuel

end

/-- Fuel that always exceeds the decoder's recursion depth (see
`gwyfile_object_fread_internal`). -/
def adequateFuel (max_size : Nat) : Nat := 4 * max_size + 8

/-- gwyfile_object_fread: entry at depth 0 with no owner. -/
def gwyfile_object_fread (stream : List Nat) (max_size : Nat) :
    Except GwyfileError (GwyfileObject × List Nat) :=
  gwyfile_object_fread_internal (adequateFuel max_size) stream max_size 0

/-- gwyfile_item_fread: entry at depth 0 with no owner. -/
def gwyfile_item_fread (stream : List Nat) (max_size : Nat) :
    Except GwyfileError (GwyfileItem × List Nat) :=
  gwyfile_item_fread_internal (adequateFuel max_size) stream max_size 0

/-- The file magic GWYFILE_MAGIC_HEADER2, "GWYP". -/
def GWYFILE_MAGIC : List Nat := [0x47, 0x57, 0x59, 0x50]

/-- gwyfile_fread: checks and consumes the 4-byte magic header, then decodes
the single top-level object. -/
def gwyfile_fread (stream : List Nat) (max_size : Nat) :
    Except GwyfileError (GwyfileObject × List Nat) :=
  match gwyfile_check_size max_size 4 with
  | .error e => .error e
  | .ok ms1 =>
    match freadBytes stream 4 with
    | .error e => .error e
    | .ok (magic, s1) =>
      if magic ≠ GWYFILE_MAGIC then .error ⟨.data, .magic⟩
      else gwyfile_object_fread s1 ms1

/-!
Serializer, gwyfile_object_fwrite / gwyfile_item_fwrite.  On a list stream
`fwrite` cannot fail, so the only reachable error is OBJECT_SIZE; C leaves
partially written output behind on that error, which the `Except` model does
not represent (the claims here concern the success output and the failure
condition).
-/

/-- The size-check threshold of `gwyfile_object_fwrite`:
`(size_t)0xffffffffu - sizeof(uint32_t) - name_len` in 64-bit `size_t`
arithmetic. -/
def objectSizeThreshold (name_len : Nat) : Nat :=
  (0xffffffff - 4 + 2 ^ 64 - name_len) % 2 ^ 64

mutual

/-- gwyfile_object_fwrite: OBJECT_SIZE check, then name, nul, the low 32
bits of `data_size` little-endian, then the items in order. -/
def gwyfile_object_fwrite (o : GwyfileObject) :
    Except GwyfileError (List Nat) :=
  match o with
  | .mk name ds items =>
    if objectSizeThreshold name.length < ds then .error ⟨.data, .objectSize⟩
    else
      match gwyfile_items_fwrite items with
      | .error e => .error e
      | .ok body => .ok (name ++ [0] ++ leBytes 4 (ds % 2 ^ 32) ++ body)

def gwyfile_items_fwrite : List GwyfileItem → Except GwyfileError (List Nat)
  | [] => .ok []
  | it :: rest =>
    match gwyfile_item_fwrite it with
    | .error e => .error e
    | .ok bs =>
      match gwyfile_items_fwrite rest with
      | .error e => .error e
      | .ok bs' => .ok (bs ++ bs')

/-- gwyfile_item_fwrite: name, nul, type byte, then the per-type payload.
The bool byte is written as `item->v.b`, i.e. re-normalized to 0 or 1. -/
def gwyfile_item_fwrite (it : GwyfileItem) :
    Except GwyfileError (List Nat) :=
  match it with
  | .mk name _ d =>
    match h : d with
    | .bool v => .ok (name ++ [0, 0x62, if v then 1 else 0])
    | .char v => .ok (name ++ [0, 0x63] ++ [v])
    | .int32 v => .ok (name ++ [0, 0x69] ++ leBytes 4 v)
    | .int64 v => .ok (name ++ [0, 0x71] ++ leBytes 8 v)
    | .double v => .ok (name ++ [0, 0x64] ++ leBytes 8 v)
    | .string v => .ok (name ++ [0, 0x73] ++ v ++ [0])
    | .object o =>
      match gwyfile_object_fwrite o with
      | .error e => .error e
      | .ok bs => .ok (name ++ [0, 0x6f] ++ bs)
    | .charArray v =>
      .ok (name ++ [0, 0x43] ++ leBytes 4 v.length ++ v)
    | .int32Array v =>
      .ok (name ++ [0, 0x49] ++ leBytes 4 v.length ++
        v.flatMap (leBytes 4))
    | .int64Array v =>
      .ok (name ++ [0, 0x51] ++ leBytes 4 v.length ++
        v.flatMap (leBytes 8))
    | .doubleArray v =>
      .ok (name ++ [0, 0x44] ++ leBytes 4 v.length ++
        v.flatMap (leBytes 8))
    | .stringArray v =>
      .ok (name ++ [0, 0x53] ++ leBytes 4 v.length ++
        v.flatMap (fun s => s ++ [0]))
    | .objectArray v =>
      match gwyfile_objects_fwrite v with
      | .error e => .error e
      | .ok bs => .ok (name ++ [0, 0x4f] ++ leBytes 4 v.length ++ bs)

def gwyfile_objects_fwrite : List GwyfileObject → Except GwyfileError (List Nat)
  | [] => .ok []
  | o :: rest =>
    match gwyfile_object_fwrite o with
    | .error e => .error e
    | .ok bs =>
      match gwyfile_objects_fwrite rest with
      | .error e => .error e
      | .ok bs' => .ok (bs ++ bs')

end

/-- gwyfile_fwrite: the magic header followed by the top-level object. -/
def gwyfile_fwrite (o : GwyfileObject) : Except GwyfileError (List Nat) :=
  match gwyfile_object_fwrite o with
  | .error e => .error e
  | .ok bs => .ok (GWYFILE_MAGIC ++ bs)

/-!
Tree mutations.  Operations that in C mutate an object in place are modelled
as functions returning the new object; the `owner` chain above the mutated
node is rebuilt by `objectModifyItem`/`itemModifyAt`, which add the signed
size delta to every ancestor's cached `data_size` exactly as
`gwyfile_object_propagate_size_change`/`gwyfile_item_propagate_size_change`
walk the chain upward.
-/

/-- gwyfile_object_append: appends the item and propagates `+item_size` into
the object's own cache. -/
def gwyfile_object_append (o : GwyfileObject) (it : GwyfileItem) :
    GwyfileObject :=
  match o with
  | .mk name ds items => .mk name (ds + it.size) (items ++ [it])

/-- gwyfile_object_add: linear duplicate scan; on a hit returns `false`
without touching the object or the item (the C failure path is a plain
`return false` before any mutation), otherwise appends. -/
def gwyfile_object_add (o : GwyfileObject) (it : GwyfileItem) :
    GwyfileObject × Bool :=
  if o.items.any (fun x => x.name == it.name) then (o, false)
  else (gwyfile_object_append o it, true)

/-- gwyfile_object_find: index of the first item with the given name;
returns the list length when absent. -/
def gwyfile_object_find (items : List GwyfileItem) (name : List Nat) : Nat :=
  match items with
  | [] => 0
  | it :: rest =>
    if it.name == name then 0 else 1 + gwyfile_object_find rest name

/-- Swap-with-last followed by pop: the array surgery shared by
`gwyfile_object_remove`, `gwyfile_object_take` and the `_with_type`
variants. -/
def swapRemoveAt (items : List GwyfileItem) (i : Nat) : List GwyfileItem :=
  match items.getLast? with
  | none => []
  | some last =>
    if i + 1 < items.length then (items.set i last).dropLast
    else items.dropLast

/-- gwyfile_object_remove: finds the item, swaps it with the last slot, then
`gwyfile_object_remove_last` propagates `-item_size` and frees it. -/
def gwyfile_object_remove (o : GwyfileObject) (name : List Nat) :
    GwyfileObject × Bool :=
  match o with
  | .mk oname ds items =>
    let i := gwyfile_object_find items name
    if h : i < items.length then
      (.mk oname (ds - (items.get ⟨i, h⟩).size) (swapRemoveAt items i), true)
    else (o, false)

/-- gwyfile_object_take: as remove but hands the item back instead of
freeing it. -/
def gwyfile_object_take (o : GwyfileObject) (name : List Nat) :
    GwyfileObject × Option GwyfileItem :=
  match o with
  | .mk oname ds items =>
    let i := gwyfile_object_find items name
    if h : i < items.length then
      (.mk oname (ds - (items.get ⟨i, h⟩).size) (swapRemoveAt items i),
       some (items.get ⟨i, h⟩))
    else (o, none)

/-!
Typed setters.  The consuming, copying and const variants of each setter
differ only in ownership of the heap storage, which the model does not
track, so each group is one function here.  Each C setter asserts the item
type matches; a mismatched call aborts the C process, modelled as the
identity (no post-abort state exists to describe).  Only the mutation of the
item itself is performed here; upward propagation
(`gwyfile_item_notify_size_change`) is the ancestor rebuild done by
`objectModifyItem`.
-/

/-- gwyfile_item_set_bool: `item->v.b = value`, no size change. -/
def gwyfile_item_set_bool (it : GwyfileItem) (v : Bool) : GwyfileItem :=
  match it with
  | .mk n ds (.bool _) => .mk n ds (.bool v)
  | _ => it

/-- gwyfile_item_set_char: `item->v.c = value`, no size change. -/
def gwyfile_item_set_char (it : GwyfileItem) (v : Nat) : GwyfileItem :=
  match it with
  | .mk n ds (.char _) => .mk n ds (.char v)
  | _ => it

/-- gwyfile_item_set_int32, no size change. -/
def gwyfile_item_set_int32 (it : GwyfileItem) (v : Nat) : GwyfileItem :=
  match it with
  | .mk n ds (.int32 _) => .mk n ds (.int32 v)
  | _ => it

/-- gwyfile_item_set_int64, no size change. -/
def gwyfile_item_set_int64 (it : GwyfileItem) (v : Nat) : GwyfileItem :=
  match it with
  | .mk n ds (.int64 _) => .mk n ds (.int64 v)
  | _ => it

/-- gwyfile_item_set_double, no size change. -/
def gwyfile_item_set_double (it : GwyfileItem) (v : Nat) : GwyfileItem :=
  match it with
  | .mk n ds (.double _) => .mk n ds (.double v)
  | _ => it

/-- gwyfile_item_set_string (and _copy/_const):
`data_size = strlen(value)+1`. -/
def gwyfile_item_set_string (it : GwyfileItem) (v : List Nat) : GwyfileItem :=
  match it with
  | .mk n _ (.string _) => .mk n (v.length + 1) (.string v)
  | _ => it

/-- gwyfile_item_set_object: `data_size = gwyfile_object_size(value)`. -/
def gwyfile_item_set_object (it : GwyfileItem) (v : GwyfileObject) :
    GwyfileItem :=
  match it with
  | .mk n _ (.object _) => .mk n v.size (.object v)
  | _ => it

/-- gwyfile_item_set_char_array (and _copy/_const):
`data_size = 4 + array_length`. -/
def gwyfile_item_set_char_array (it : GwyfileItem) (v : List Nat) :
    GwyfileItem :=
  match it with
  | .mk n _ (.charArray _) => .mk n (4 + v.length) (.charArray v)
  | _ => it

/-- gwyfile_item_set_int32_array (and _copy/_const):
`data_size = 4 + 4*array_length`. -/
def gwyfile_item_set_int32_array (it : GwyfileItem) (v : List Nat) :
    GwyfileItem :=
  match it with
  | .mk n _ (.int32Array _) => .mk n (4 + 4 * v.length) (.int32Array v)
  | _ => it

/-- gwyfile_item_set_int64_array (and _copy/_const):
`data_size = 4 + 8*array_length`. -/
def gwyfile_item_set_int64_array (it : GwyfileItem) (v : List Nat) :
    GwyfileItem :=
  match it with
  | .mk n _ (.int64Array _) => .mk n (4 + 8 * v.length) (.int64Array v)
  | _ => it

/-- gwyfile_item_set_double_array (and _copy/_const):
`data_size = 4 + 8*array_length`. -/
def gwyfile_item_set_double_array (it : GwyfileItem) (v : List Nat) :
    GwyfileItem :=
  match it with
  | .mk n _ (.doubleArray _) => .mk n (4 + 8 * v.length) (.doubleArray v)
  | _ => it

/-- gwyfile_item_set_string_array (and _copy/_const):
`data_size = 4 + Σ (strlen+1)`. -/
def gwyfile_item_set_string_array (it : GwyfileItem) (v : List (List Nat)) :
    GwyfileItem :=
  match it with
  | .mk n _ (.stringArray _) =>
    .mk n (4 + stringsSizeSum v) (.stringArray v)
  | _ => it

/-- gwyfile_item_set_object_array: `data_size = 4 + Σ object_size`. -/
def gwyfile_item_set_object_array (it : GwyfileItem) (v : List GwyfileObject) :
    GwyfileItem :=
  match it with
  | .mk n _ (.objectArray _) =>
    .mk n (4 + objectsSizeSum v) (.objectArray v)
  | _ => it

mutual

/-- Rebuilds an object after mutating the item at index `i` (descending
further along `path`), adding the item's `data_size` delta to the object's
cached size: this is one step of the
`gwyfile_object_propagate_size_change` walk. -/
def objectModifyItem (o : GwyfileObject) (i : Nat) (path : List Nat)
    (f : GwyfileItem → GwyfileItem) : GwyfileObject :=
  match o with
  | .mk name ds items =>
    match items.get? i with
    | none => .mk name ds items
    | some old =>
      let new := itemModifyAt old path f
      .mk name (ds + new.data_size - old.data_size) (items.set i new)
termination_by (path.length, 1)

/-- Applies the mutation `f` to the item addressed by `path` (empty path:
this item), adding the wrapped object's `data_size` delta to the item's
cached size as `gwyfile_item_propagate_size_change` does.  For an object
item the next path component indexes the wrapped object's items; for an
object-array item the next two components index the array element and then
its items.  An ill-typed path leaves the tree unchanged. -/
def itemModifyAt (it : GwyfileItem) (path : List Nat)
    (f : GwyfileItem → GwyfileItem) : GwyfileItem :=
  match path with
  | [] => f it
  | j :: rest =>
    match it with
    | .mk n ds (.object o) =>
      let o2 := objectModifyItem o j rest f
      .mk n (ds + o2.data_size - o.data_size) (.object o2)
    | .mk n ds (.objectArray v) =>
      match rest with
      | [] => .mk n ds (.objectArray v)
      | j2 :: rest2 =>
        match v.get? j with
        | none => .mk n ds (.objectArray v)
        | some o =>
          let o2 := objectModifyItem o j2 rest2 f
          .mk n (ds + o2.data_size - o.data_size) (.objectArray (v.set j o2))
    | other => other
termination_by (path.length, 0)

end

/-!
Conformance checker, gwyfile_check_object and helpers.  The error list
argument is `Option (List GwyfileCheckError)`: `none` is a NULL
`GwyfileErrorList*`.  Each C check helper appends one error when the list is
non-null; every caller then tests `!check(...) && !errlist` and returns
`false` early only in the NULL-list mode.
-/

/-- Problem categories of the checker, enums GwyfileInvalidCode and
GwyfileWarningCode of gwyfile.h. -/
inductive GwyfileCheckCode where
  | invalidUtf8Name
  | invalidUtf8Type
  | invalidUtf8String
  | invalidDouble
  | typeIdentifier
  | emptyName
deriving DecidableEq

/-- An error collected by the checker: domain plus code. -/
structure GwyfileCheckError where
  domain : GwyfileErrorDomain
  code : GwyfileCheckCode
deriving DecidableEq

def GWYFILE_CHECK_FLAG_VALIDITY : Nat := 4

def GWYFILE_CHECK_FLAG_WARNING : Nat := 8

/-- gwyfile_is_valid_utf8: accepts 1- to 6-byte sequences with well-formed
continuation bytes.  A zero byte is the C string terminator. -/
def gwyfile_is_valid_utf8_loop (s : List Nat) (remains : Nat) : Bool :=
  match s with
  | [] => remains == 0
  | b :: rest =>
    if b = 0 then remains == 0
    else if remains = 0 then
      if b &&& 0x80 == 0 then gwyfile_is_valid_utf8_loop rest 0
      else if b &&& 0xe0 == 0xc0 then gwyfile_is_valid_utf8_loop rest 1
      else if b &&& 0xf0 == 0xe0 then gwyfile_is_valid_utf8_loop rest 2
      else if b &&& 0xf8 == 0xf0 then gwyfile_is_valid_utf8_loop rest 3
      else if b &&& 0xfc == 0xf8 then gwyfile_is_valid_utf8_loop rest 4
      else if b &&& 0xfe == 0xfc then gwyfile_is_valid_utf8_loop rest 5
      else false
    else
      if b &&& 0xc0 != 0x80 then false
      else gwyfile_is_valid_utf8_loop rest (remains - 1)

def gwyfile_is_valid_utf8 (s : List Nat) : Bool :=
  gwyfile_is_valid_utf8_loop s 0

def isAsciiLetter (c : Nat) : Bool :=
  (0x41 ≤ c && c ≤ 0x5a) || (0x61 ≤ c && c ≤ 0x7a)

def isIdentTail (c : Nat) : Bool :=
  isAsciiLetter c || (0x30 ≤ c && c ≤ 0x39) || c == 0x5f

/-- gwyfile_is_valid_identifier: `[A-Za-z][A-Za-z0-9_]*`. -/
def gwyfile_is_valid_identifier (s : List Nat) : Bool :=
  match s with
  | [] => false
  | c :: rest => isAsciiLetter c && rest.all isIdentTail

/-- gwyfile_double_isnormal: true unless the biased exponent (bits 52..62 of
the IEEE 754 pattern) is 0x7ff, i.e. unless NaN or infinite. -/
def gwyfile_double_isnormal (bits : Nat) : Bool :=
  !((bits / 2 ^ 52) % 2 ^ 11 == 0x7ff)

def errlistLen : Option (List GwyfileCheckError) → Nat
  | none => 0
  | some l => l.length

/-- gwyfile_check_valid_utf8: appends a VALIDITY-domain error with the given
code when the string is not valid UTF-8. -/
def gwyfile_check_valid_utf8 (s : List Nat) (code : GwyfileCheckCode)
    (errlist : Option (List GwyfileCheckError)) :
    Bool × Option (List GwyfileCheckError) :=
  if gwyfile_is_valid_utf8 s then (true, errlist)
  else
    match errlist with
    | none => (false, none)
    | some l => (false, some (l ++ [⟨.validity, code⟩]))

/-- gwyfile_check_valid_identifier: WARNING-domain TYPE_IDENTIFIER error on
an object name that is not a C-like identifier. -/
def gwyfile_check_valid_identifier (s : List Nat)
    (errlist : Option (List GwyfileCheckError)) :
    Bool × Option (List GwyfileCheckError) :=
  if gwyfile_is_valid_identifier s then (true, errlist)
  else
    match errlist with
    | none => (false, none)
    | some l => (false, some (l ++ [⟨.warning, .typeIdentifier⟩]))

/-- gwyfile_check_nonempty_name: WARNING-domain EMPTY_NAME error on an empty
item name. -/
def gwyfile_check_nonempty_name (s : List Nat)
    (errlist : Option (List GwyfileCheckError)) :
    Bool × Option (List GwyfileCheckError) :=
  if s.length ≠ 0 then (true, errlist)
  else
    match errlist with
    | none => (false, none)
    | some l => (false, some (l ++ [⟨.warning, .emptyName⟩]))

/-- gwyfile_check_double: VALIDITY-domain INVALID_DOUBLE error on a NaN or
infinite value. -/
def gwyfile_check_double (bits : Nat)
    (errlist : Option (List GwyfileCheckError)) :
    Bool × Option (List GwyfileCheckError) :=
  if gwyfile_double_isnormal bits then (true, errlist)
  else
    match errlist with
    | none => (false, none)
    | some l => (false, some (l ++ [⟨.validity, .invalidDouble⟩]))

/-- String-array element loop of `gwyfile_check_item_internal`, with the
`&& !errlist` early return of the C loop body. -/
def gwyfile_check_strings_loop (ss : List (List Nat))
    (errlist : Option (List GwyfileCheckError)) :
    Bool × Option (List GwyfileCheckError) :=
  match ss with
  | [] => (true, errlist)
  | s :: rest =>
    let r := gwyfile_check_valid_utf8 s .invalidUtf8String errlist
    if r.1 = false ∧ r.2 = none then (false, none)
    else gwyfile_check_strings_loop rest r.2

/-- Double-array element loop of `gwyfile_check_item_internal`. -/
def gwyfile_check_doubles_loop (vs : List Nat)
    (errlist : Option (List GwyfileCheckError)) :
    Bool × Option (List GwyfileCheckError) :=
  match vs with
  | [] => (true, errlist)
  | v :: rest =>
    let r := gwyfile_check_double v errlist
    if r.1 = false ∧ r.2 = none then (false, none)
    else gwyfile_check_doubles_loop rest r.2

/-- The VALIDITY payload switch of `gwyfile_check_item_internal`: UTF-8
checks on string payloads, finiteness checks on double payloads. -/
def gwyfile_check_item_payload (d : GwyfileItemData)
    (errlist : Option (List GwyfileCheckError)) :
    Bool × Option (List GwyfileCheckError) :=
  match d with
  | .string v => gwyfile_check_valid_utf8 v .invalidUtf8String errlist
  | .stringArray v => gwyfile_check_strings_loop v errlist
  | .double v => gwyfile_check_double v errlist
  | .doubleArray v => gwyfile_check_doubles_loop v errlist
  | _ => (true, errlist)

mutual

/-- gwyfile_check_object_internal: object-name UTF-8 check (VALIDITY),
identifier check (WARNING), then all items; returns true iff nothing was
appended (or, with a NULL list, no check failed). -/
def gwyfile_check_object_internal (o : GwyfileObject) (flags : Nat)
    (errlist : Option (List GwyfileCheckError)) :
    Bool × Option (List GwyfileCheckError) :=
  match o with
  | .mk name _ items =>
    let oldn := errlistLen errlist
    let r1 :=
      if flags &&& GWYFILE_CHECK_FLAG_VALIDITY ≠ 0 then
        gwyfile_check_valid_utf8 name .invalidUtf8Type errlist
      else (true, errlist)
    if r1.1 = false ∧ r1.2 = none then (false, none)
    else
      let r2 :=
        if flags &&& GWYFILE_CHECK_FLAG_WARNING ≠ 0 then
          gwyfile_check_valid_identifier name r1.2
        else (true, r1.2)
      if r2.1 = false ∧ r2.2 = none then (false, none)
      else
        let r3 := gwyfile_check_items_loop items flags r2.2
        if r3.1 = false ∧ r3.2 = none then (false, none)
        else (r3.2.isNone || decide (errlistLen r3.2 = oldn), r3.2)

/-- Item loop of `gwyfile_check_object_internal`. -/
def gwyfile_check_items_loop (items : List GwyfileItem) (flags : Nat)
    (errlist : Option (List GwyfileCheckError)) :
    Bool × Option (List GwyfileCheckError) :=
  match items with
  | [] => (true, errlist)
  | it :: rest =>
    let r := gwyfile_check_item_internal it flags errlist
    if r.1 = false ∧ r.2 = none then (false, none)
    else gwyfile_check_items_loop rest flags r.2

/-- The child-object recursion of `gwyfile_check_item_internal`, entered
regardless of flags. -/
def gwyfile_check_item_children (d : GwyfileItemData) (flags : Nat)
    (errlist : Option (List GwyfileCheckError)) :
    Bool × Option (List GwyfileCheckError) :=
  match d with
  | .object o => gwyfile_check_object_internal o flags errlist
  | .objectArray v => gwyfile_check_objects_loop v flags errlist
  | _ => (true, errlist)

/-- gwyfile_check_item_internal: item-name UTF-8 (VALIDITY), non-empty name
(WARNING), string/double payload checks (VALIDITY), then recursion into
object payloads regardless of flags. -/
def gwyfile_check_item_internal (it : GwyfileItem) (flags : Nat)
    (errlist : Option (List GwyfileCheckError)) :
    Bool × Option (List GwyfileCheckError) :=
  match it with
  | .mk name _ d =>
    let oldn := errlistLen errlist
    let r1 :=
      if flags &&& GWYFILE_CHECK_FLAG_VALIDITY ≠ 0 then
        gwyfile_check_valid_utf8 name .invalidUtf8Name errlist
      else (true, errlist)
    if r1.1 = false ∧ r1.2 = none then (false, none)
    else
      let r2 :=
        if flags &&& GWYFILE_CHECK_FLAG_WARNING ≠ 0 then
          gwyfile_check_nonempty_name name r1.2
        else (true, r1.2)
      if r2.1 = false ∧ r2.2 = none then (false, none)
      else
        let r3 :=
          if flags &&& GWYFILE_CHECK_FLAG_VALIDITY ≠ 0 then
            gwyfile_check_item_payload d r2.2
          else (true, r2.2)
        if r3.1 = false ∧ r3.2 = none then (false, none)
        else
          let r4 := gwyfile_check_item_children d flags r3.2
          if r4.1 = false ∧ r4.2 = none then (false, none)
          else (r4.2.isNone || decide (errlistLen r4.2 = oldn), r4.2)

/-- Object-array element loop of `gwyfile_check_item_internal`. -/
def gwyfile_check_objects_loop (os : List GwyfileObject) (flags : Nat)
    (errlist : Option (List GwyfileCheckError)) :
    Bool × Option (List GwyfileCheckError) :=
  match os with
  | [] => (true, errlist)
  | o :: rest =>
    let r := gwyfile_check_object_internal o flags errlist
    if r.1 = false ∧ r.2 = none then (false, none)
    else gwyfile_check_objects_loop rest flags r.2

end

/-- gwyfile_check_object: masks the flags to the two known categories,
returns true immediately when none remains, otherwise runs the traversal. -/
def gwyfile_check_object (o : GwyfileObject) (flags : Nat)
    (errlist : Option (List GwyfileCheckError)) :
    Bool × Option (List GwyfileCheckError) :=
  let fl := flags &&& (GWYFILE_CHECK_FLAG_VALIDITY ||| GWYFILE_CHECK_FLAG_WARNING)
  if fl = 0 then (true, errlist)
  else gwyfile_check_object_internal o fl errlist

/-!
Public accessors.  A NULL `GwyfileItem*` argument is `none`.  All accessors
except `gwyfile_item_size` and `gwyfile_item_data_size` assert a non-null
argument; those two also return 0 for an item whose `type` field is zero (a
state no constructor of the model - or of the C API - produces, mirrored by
the dead `typeTag = 0` test). -/

/-- gwyfile_item_data_size: `(!item || !item->type) ? 0 : item->data_size`. -/
def gwyfile_item_data_size (item : Option GwyfileItem) : Nat :=
  match item with
  | none => 0
  | some it => if it.data.typeTag = 0 then 0 else it.data_size

/-- gwyfile_item_size:
`(!item || !item->type) ? 0 : 1 + item->name_len+1 + item->data_size`. -/
def gwyfile_item_size (item : Option GwyfileItem) : Nat :=
  match item with
  | none => 0
  | some it =>
    if it.data.typeTag = 0 then 0
    else 1 + it.name.length + 1 + it.data_size

/-- gwyfile_object_nitems. -/
def gwyfile_object_nitems (o : GwyfileObject) : Nat := o.items.length

/-- gwyfile_object_item_names: the item names in array order. -/
def gwyfile_object_item_names (o : GwyfileObject) : List (List Nat) :=
  o.items.map GwyfileItem.name

/-- gwyfile_object_foreach: the callback sees `items[0] .. items[n-1]` in
array order; the model returns that visiting sequence. -/
def gwyfile_object_foreach (o : GwyfileObject) : List GwyfileItem :=
  o.items

theorem GwyfileItemData.typeTag_ne_zero (d : GwyfileItemData) :
    d.typeTag ≠ 0 := by
  cases d <;> simp [GwyfileItemData.typeTag]

/-- C10: `gwyfile_item_size` and `gwyfile_item_data_size` are total at the
interface edge: both map a NULL item (and the unreachable zero-type item) to
0, and on every real item `gwyfile_item_size` is name length + nul + type
byte + `data_size`, i.e. `gwyfile_item_data_size` plus the header. -/
theorem item_size_total :
    gwyfile_item_data_size none = 0 ∧ gwyfile_item_size none = 0 ∧
    (∀ it : GwyfileItem,
      gwyfile_item_data_size (some it) = it.data_size ∧
      gwyfile_item_size (some it) = it.name.length + 1 + 1 + it.data_size ∧
      gwyfile_item_size (some it) =
        gwyfile_item_data_size (some it) + (it.name.length + 2)) := by
  refine ⟨rfl, rfl, fun it => ?_⟩
  have h := GwyfileItemData.typeTag_ne_zero it.data
  refine ⟨?_, ?_, ?_⟩ <;> simp [gwyfile_item_data_size, gwyfile_item_size, h]
  · omega
  · omega

/-- C9: a rejected `gwyfile_object_add` (duplicate name) is atomic: the
result is the pair of the unchanged object - same item list, item count and
`data_size`, the existing item kept - and `false`; the C failure path
returns before `gwyfile_object_append` runs, so the rejected item is never
appended, freed or given an owner (attachment being list membership here, it
stays a caller-owned root). -/
theorem object_add_duplicate_atomic (o : GwyfileObject) (it : GwyfileItem)
    (hdup : ∃ x ∈ o.items, x.name = it.name) :
    gwyfile_object_add o it = (o, false) := by
  rw [gwyfile_object_add, if_pos]
  obtain ⟨x, hx, hname⟩ := hdup
  exact List.any_eq_true.mpr ⟨x, hx, by simp [hname]⟩

/-- Witness for `object_add_duplicate_atomic` at a one-item object. -/
theorem object_add_duplicate_atomic_witness :
    gwyfile_object_add (.mk [0x54] 4 [.mk [0x78] 1 (.bool true)])
      (.mk [0x78] 1 (.char 7)) =
      (.mk [0x54] 4 [.mk [0x78] 1 (.bool true)], false) :=
  object_add_duplicate_atomic _ _
    ⟨.mk [0x78] 1 (.bool true), List.mem_cons_self _ _, rfl⟩

/-! Order facts about `strcmpList` and the duplicate scan. -/

theorem strcmpList_total (a b : List Nat) :
    strcmpList a b ≤ 0 ∨ strcmpList b a ≤ 0 := by
  induction a generalizing b with
  | nil => exact Or.inl (by cases b <;> simp [strcmpList])
  | cons x xs ih =>
    cases b with
    | nil => exact Or.inr (by simp [strcmpList])
    | cons y ys =>
      rcases Nat.lt_trichotomy x y with h | h | h
      · exact Or.inl (by simp [strcmpList, h])
      · subst h
        rcases ih ys with h2 | h2
        · exact Or.inl (by simp [strcmpList, h2])
        · exact Or.inr (by simp [strcmpList, h2])
      · exact Or.inr (by simp [strcmpList, h])

theorem strcmpList_antisymm (a b : List Nat)
    (h1 : strcmpList a b ≤ 0) (h2 : strcmpList b a ≤ 0) : a = b := by
  induction a generalizing b with
  | nil =>
    cases b with
    | nil => rfl
    | cons y ys => simp [strcmpList] at h2
  | cons x xs ih =>
    cases b with
    | nil => simp [strcmpList] at h1
    | cons y ys =>
      rcases Nat.lt_trichotomy x y with h | h | h
      · rw [strcmpList] at h2
        rw [if_neg (by omega), if_pos h] at h2
        exact absurd h2 (by decide)
      · subst h
        rw [strcmpList, if_neg (lt_irrefl x), if_neg (lt_irrefl x)] at h1
        rw [strcmpList, if_neg (lt_irrefl x), if_neg (lt_irrefl x)] at h2
        exact congrArg (x :: ·) (ih _ h1 h2)
      · rw [strcmpList] at h1
        rw [if_neg (by omega), if_pos h] at h1
        exact absurd h1 (by decide)

theorem strcmpList_le_trans (a b c : List Nat)
    (h1 : strcmpList a b ≤ 0) (h2 : strcmpList b c ≤ 0) :
    strcmpList a c ≤ 0 := by
  induction a generalizing b c with
  | nil => cases c <;> simp [strcmpList]
  | cons x xs ih =>
    cases b with
    | nil => simp [strcmpList] at h1
    | cons y ys =>
      cases c with
      | nil => simp [strcmpList] at h2
      | cons z zs =>
        rw [strcmpList] at h1 h2 ⊢
        have hyx : ¬ y < x := by
          intro h
          rw [if_neg (by omega), if_pos h] at h1
          exact absurd h1 (by decide)
        have hzy : ¬ z < y := by
          intro h
          rw [if_neg (by omega), if_pos h] at h2
          exact absurd h2 (by decide)
        by_cases hxz : x < z
        · rw [if_pos hxz]; decide
        · rw [if_neg hxz, if_neg (by omega)]
          rw [if_neg (by omega : ¬ x < y), if_neg hyx] at h1
          rw [if_neg (by omega : ¬ y < z), if_neg hzy] at h2
          exact ih _ _ h1 h2

/-- The comparison `gwyfile_compare_items` as a relation on items. -/
def itemNameLe (a b : GwyfileItem) : Prop := strcmpList a.name b.name ≤ 0

instance : DecidableRel itemNameLe := fun a b =>
  inferInstanceAs (Decidable (strcmpList a.name b.name ≤ 0))

instance : IsTotal GwyfileItem itemNameLe :=
  ⟨fun a b => strcmpList_total a.name b.name⟩

instance : IsTrans GwyfileItem itemNameLe :=
  ⟨fun a b c => strcmpList_le_trans a.name b.name c.name⟩

theorem insertByName_eq_orderedInsert (x : GwyfileItem)
    (l : List GwyfileItem) :
    insertByName x l = List.orderedInsert itemNameLe x l := by
  induction l with
  | nil => rfl
  | cons y ys ih =>
    rw [insertByName, List.orderedInsert]
    by_cases h : strcmpList x.name y.name ≤ 0
    · rw [if_pos h, if_pos (show itemNameLe x y from h)]
    · rw [if_neg h, if_neg (show ¬ itemNameLe x y from h), ih]

theorem sortItemsByName_eq_insertionSort (l : List GwyfileItem) :
    sortItemsByName l = List.insertionSort itemNameLe l := by
  induction l with
  | nil => rfl
  | cons x xs ih =>
    rw [sortItemsByName, List.insertionSort, ih, insertByName_eq_orderedInsert]

theorem sortItemsByName_sorted (l : List GwyfileItem) :
    (sortItemsByName l).Pairwise itemNameLe := by
  rw [sortItemsByName_eq_insertionSort]
  exact List.sorted_insertionSort itemNameLe l

/-- A name-sorted list without adjacent equal names has pairwise distinct
names. -/
theorem pairwise_ne_of_sorted_adjacent (l : List GwyfileItem)
    (hs : l.Pairwise itemNameLe) (ha : adjacentDuplicate l = none) :
    l.Pairwise (fun a b => a.name ≠ b.name) := by
  induction l with
  | nil => simp
  | cons x xs ih =>
    cases xs with
    | nil => simp
    | cons y ys =>
      rw [adjacentDuplicate] at ha
      have hxy : x.name ≠ y.name := by
        intro h
        rw [if_pos h] at ha
        exact absurd ha (by simp)
      rw [if_neg hxy] at ha
      obtain ⟨hx, hrest⟩ := List.pairwise_cons.mp hs
      refine List.Pairwise.cons ?_ (ih hrest ha)
      intro z hz heq
      rcases List.mem_cons.mp hz with rfl | hz2
      · exact hxy heq
      · obtain ⟨hy, -⟩ := List.pairwise_cons.mp hrest
        have h1 : strcmpList x.name y.name ≤ 0 := hx y (List.mem_cons_self _ _)
        have h2 : strcmpList y.name x.name ≤ 0 := heq ▸ hy z hz2
        exact hxy (strcmpList_antisymm _ _ h1 h2)

/-- When the duplicate scan reports no duplicate, the (sorted) item list it
leaves behind has pairwise distinct names. -/
theorem find_duplicate_none_pairwise (items res : List GwyfileItem)
    (h : gwyfile_object_find_duplicate_item items = (res, none)) :
    res.Pairwise (fun a b => a.name ≠ b.name) := by
  rw [gwyfile_object_find_duplicate_item] at h
  split at h
  · simp only [Prod.mk.injEq] at h
    obtain ⟨rfl, -⟩ := h
    rename_i hlen
    match items, hlen with
    | [], _ => simp
    | [x], _ => simp
  · simp only [Prod.mk.injEq] at h
    obtain ⟨rfl, ha⟩ := h
    exact pairwise_ne_of_sorted_adjacent _ (sortItemsByName_sorted items) ha

/-- Inversion of a successful object decode: the returned item list is
exactly what the duplicate scan handed back with no duplicate found. -/
theorem object_fread_ok_shape (fuel : Nat) (stream : List Nat) (ms d : Nat)
    (o : GwyfileObject) (rest : List Nat)
    (h : gwyfile_object_fread_internal fuel stream ms d = .ok (o, rest)) :
    ∃ raw, gwyfile_object_find_duplicate_item raw = (o.items, none) := by
  match fuel with
  | 0 => exact absurd h (by rw [gwyfile_object_fread_internal]; simp)
  | fuel + 1 =>
  rw [gwyfile_object_fread_internal] at h
  split at h
  · exact absurd h (by simp)
  · split at h
    · exact absurd h (by simp)
    · split at h
      · exact absurd h (by simp)
      · split at h
        · exact absurd h (by simp)
        · simp only [] at h
          split at h
          · exact absurd h (by simp)
          · split at h
            · exact absurd h (by simp)
            · rename_i items s3 hitems
              split at h
              · exact absurd h (by simp)
              · rename_i sorted hdup
                simp only [Except.ok.injEq, Prod.mk.injEq] at h
                obtain ⟨rfl, -⟩ := h
                exact ⟨items, by simpa using hdup⟩

/-!
Concrete wire images used by the claims.  Byte layout of an item:
name bytes, nul, type byte, payload; of an object: name bytes, nul, 4-byte
little-endian payload length, items.  A GWY file prepends the magic
"GWYP". -/

/-- A file holding one object "T" whose payload is two bool items named
"x" and "x" (8 payload bytes), as in the spec's duplicate-detection
scenario. -/
def dupNameWire : List Nat :=
  [0x47, 0x57, 0x59, 0x50] ++ [0x54, 0x00] ++ [8, 0, 0, 0] ++
  [0x78, 0x00, 0x62, 0x01] ++ [0x78, 0x00, 0x62, 0x01]

/-- C4: within one object item names are pairwise distinct, enforced at both
entry points: `gwyfile_object_add` answers false when the name is already
present, every successfully decoded object has pairwise distinct item
names, and the duplicate wire image fails with DUPLICATE_NAME in domain
DATA. -/
theorem unique_names_enforced :
    (∀ (o : GwyfileObject) (it : GwyfileItem),
      (∃ x ∈ o.items, x.name = it.name) → (gwyfile_object_add o it).2 = false)
    ∧ (∀ fuel stream ms depth o rest,
        gwyfile_object_fread_internal fuel stream ms depth = .ok (o, rest) →
        o.items.Pairwise (fun a b => a.name ≠ b.name))
    ∧ gwyfile_fread dupNameWire 1000 = .error ⟨.data, .duplicateName⟩ := by
  refine ⟨?_, ?_, rfl⟩
  · rintro o it ⟨x, hx, hn⟩
    rw [gwyfile_object_add,
      if_pos (List.any_eq_true.mpr ⟨x, hx, by simp [hn]⟩)]
  · intro fuel s ms d o rest h
    obtain ⟨raw, hraw⟩ := object_fread_ok_shape fuel s ms d o rest h
    exact find_duplicate_none_pairwise raw _ hraw

/-- Witness for `unique_names_enforced` at a concrete duplicate add. -/
theorem unique_names_enforced_witness :
    (gwyfile_object_add (.mk [0x54] 4 [.mk [0x79] 1 (.bool true)])
      (.mk [0x79] 1 (.bool false))).2 = false :=
  unique_names_enforced.1 _ _
    ⟨.mk [0x79] 1 (.bool true), List.mem_cons_self _ _, rfl⟩

/-- A file holding one object "T" with two bool items, named "b" first and
"a" second on the wire. -/
def orderedPairWire : List Nat :=
  [0x47, 0x57, 0x59, 0x50] ++ [0x54, 0x00] ++ [8, 0, 0, 0] ++
  [0x62, 0x00, 0x62, 0x01] ++ [0x61, 0x00, 0x62, 0x01]

/-- The tree `gwyfile_fread` reconstructs from `orderedPairWire`: the
duplicate-name scan has qsorted the item array, so item "a" now precedes
item "b". -/
def orderedPairDecoded : GwyfileObject :=
  .mk [0x54] 8 [.mk [0x61] 1 (.bool true), .mk [0x62] 1 (.bool true)]

/-- C1: the byte-level round-trip law fails on the code.
`orderedPairWire` deserializes successfully, but re-serializing the result
writes the items in name-sorted order - the in-place `qsort` of
`gwyfile_object_find_duplicate_item` permuted the object's item array - so
the output differs from the input (bytes 10..17 are swapped blockwise),
contradicting the byte-for-byte intent stated in the source comment in
`gwyfile_object_fread_internal`. -/
theorem roundtrip_bytes_violated :
    gwyfile_fread orderedPairWire 1000 = .ok (orderedPairDecoded, []) ∧
    gwyfile_fwrite orderedPairDecoded =
      .ok ([0x47, 0x57, 0x59, 0x50] ++ [0x54, 0x00] ++ [8, 0, 0, 0] ++
        [0x61, 0x00, 0x62, 0x01] ++ [0x62, 0x00, 0x62, 0x01]) ∧
    ([0x47, 0x57, 0x59, 0x50] ++ [0x54, 0x00] ++ [8, 0, 0, 0] ++
        [0x61, 0x00, 0x62, 0x01] ++ [0x62, 0x00, 0x62, 0x01] : List Nat) ≠
      orderedPairWire :=
  ⟨rfl, rfl, by decide⟩

/-- An object (no file magic) with two bool items, named "b" first and "a"
second on the wire. -/
def orderedPairObjectWire : List Nat :=
  [0x54, 0x00] ++ [8, 0, 0, 0] ++
  [0x62, 0x00, 0x62, 0x01] ++ [0x61, 0x00, 0x62, 0x01]

/-- C2: iteration order after decoding is NOT the wire order.  The wire
carries item "b" before item "a", but the duplicate-name check at the end
of object decoding qsorts the object's own item array and never restores
it, so `gwyfile_object_item_names` (and `gwyfile_object_foreach`, which
visits the same array in the same order) reports "a" before "b". -/
theorem iteration_order_not_wire_order :
    gwyfile_object_fread orderedPairObjectWire 1000 =
      .ok (orderedPairDecoded, []) ∧
    gwyfile_object_item_names orderedPairDecoded = [[0x61], [0x62]] ∧
    gwyfile_object_foreach orderedPairDecoded =
      orderedPairDecoded.items ∧
    gwyfile_object_item_names orderedPairDecoded ≠ [[0x62], [0x61]] :=
  ⟨rfl, rfl, rfl, by decide⟩

/-- A file holding one object "T" with a single char-array item "c" of
declared length 2 and payload bytes AA BB. -/
def charArrayWire : List Nat :=
  [0x47, 0x57, 0x59, 0x50] ++ [0x54, 0x00] ++ [9, 0, 0, 0] ++
  [0x63, 0x00, 0x43] ++ [2, 0, 0, 0] ++ [0xAA, 0xBB]

/-- C5: a strict prefix of a valid encoding that still decodes.
`charArrayWire` is a valid file; truncating its last byte leaves the
char-array payload one byte short, yet decoding succeeds because
`gwyfile_item_fread_internal` only tests `fread(ca, sizeof(char), alen,
stream)` for being nonzero instead of comparing it with `alen` (the missing
byte is uninitialized malloc memory in C, zero in the model).  The spec
mandates CONFINEMENT here and flags this very check as a bug to fix. -/
theorem truncated_char_array_accepted :
    gwyfile_fread charArrayWire 1000 =
      .ok (.mk [0x54] 9 [.mk [0x63] 6 (.charArray [0xAA, 0xBB])], []) ∧
    charArrayWire = charArrayWire.dropLast ++ [0xBB] ∧
    gwyfile_fread charArrayWire.dropLast 1000 =
      .ok (.mk [0x54] 9 [.mk [0x63] 6 (.charArray [0xAA, 0])], []) :=
  ⟨rfl, by decide, rfl⟩


/-- Wire image of a bare chain of k+1 nested objects: object with empty
name whose single item (empty name, type 'o') wraps the next level. -/
def deepBytes : Nat → List Nat
  | 0 => [0, 0, 0, 0, 0]
  | k + 1 =>
    [0] ++ leBytes 4 (2 + (deepBytes k).length) ++ [0, 0x6f] ++ deepBytes k

/-- The tree deepBytes k decodes to. -/
def chainObj : Nat → GwyfileObject
  | 0 => .mk [] 0 []
  | k + 1 => .mk [] (7 * k + 7) [.mk [] (7 * k + 5) (.object (chainObj k))]

theorem leBytes_length (k v : Nat) : (leBytes k v).length = k := by
  induction k generalizing v with
  | zero => rfl
  | succ n ih => simp [leBytes, ih]

theorem leNat_leBytes (k v : Nat) (h : v < 256 ^ k) :
    leNat (leBytes k v) = v := by
  induction k generalizing v with
  | zero => simp at h; simp [leBytes, leNat, h]
  | succ n ih =>
    rw [leBytes, leNat, ih (v / 256) (by
      rw [pow_succ] at h
      omega)]
    omega

theorem freadBytes_exact (l t : List Nat) (k : Nat) (h : l.length = k) :
    freadBytes (l ++ t) k = .ok (l, t) := by
  subst h
  rw [freadBytes, if_neg (by simp)]
  simp

theorem fread_string_nul (t : List Nat) (ms : Nat) (h : ms ≠ 0) :
    gwyfile_fread_string (0 :: t) ms = .ok ([], t, ms - 1) := by
  rw [gwyfile_fread_string, if_neg h, gwyfile_fread_string_loop]
  rw [if_pos rfl, if_neg (by omega), if_neg (by norm_num)]
  simp

theorem gwyfile_check_size_success (ms k : Nat) (h : k ≤ ms) :
    gwyfile_check_size ms k = .ok (ms - k) := by
  rw [gwyfile_check_size, if_neg (by omega)]

theorem deepBytes_length (k : Nat) : (deepBytes k).length = 5 + 7 * k := by
  induction k with
  | zero => rfl
  | succ n ih => simp [deepBytes, ih, leBytes_length]; omega

theorem chainObj_size (k : Nat) : (chainObj k).size = 7 * k + 5 := by
  cases k with
  | zero => rfl
  | succ n => simp [chainObj, GwyfileObject.size]; omega

theorem deep_step_ok (k F d ms : Nat) (hF : 1 ≤ F) (hk : k ≤ 300)
    (hms : 12 + 7 * k ≤ ms) (hd : d < 200)
    (hinner : gwyfile_object_fread_internal F (deepBytes k) (7 * k + 5)
      (d + 1) = .ok (chainObj k, [])) :
    gwyfile_object_fread_internal (F + 3) (deepBytes (k + 1)) ms d =
      .ok (chainObj (k + 1), []) := by
  obtain ⟨F2, rfl⟩ : ∃ F2, F = F2 + 1 := ⟨F - 1, by omega⟩
  have hlen : (deepBytes k).length = 5 + 7 * k := deepBytes_length k
  have hL : 2 + (deepBytes k).length = 7 * k + 7 := by omega
  have h256 : 7 * k + 7 < 256 ^ 4 := by
    have : (256 : Nat) ^ 4 = 4294967296 := by norm_num
    omega
  rw [gwyfile_object_fread_internal,
    if_neg (show ¬ GWYFILE_MAX_DEPTH ≤ d by rw [GWYFILE_MAX_DEPTH]; omega),
    deepBytes, hL]
  simp only [List.append_assoc, List.cons_append, List.nil_append]
  rw [fread_string_nul _ _ (show ms ≠ 0 by omega)]
  simp only []
  rw [gwyfile_check_size_success _ _ (show 4 ≤ ms - 1 by omega)]
  simp only []
  simp only [freadBytes_exact (leBytes 4 (7 * k + 7)) (0 :: 0x6f :: deepBytes k) 4
    (leBytes_length _ _)]
  simp only [leNat_leBytes _ _ h256]
  rw [if_neg (show ¬ (ms - 1 - 4 < 7 * k + 7) by omega)]
  rw [gwyfile_object_read_items, if_neg (show ¬ (7 * k + 7 = 0) by omega)]
  rw [gwyfile_item_fread_internal]
  rw [fread_string_nul _ _ (show (7 * k + 7 : Nat) ≠ 0 by omega)]
  simp only []
  rw [gwyfile_check_size_success _ _ (show 1 ≤ 7 * k + 7 - 1 by omega)]
  simp only []
  norm_num [gwyfile_item_type_is_valid, gwyfile_item_type_is_array]
  rw [hinner]
  simp only [GwyfileItem.size, List.length_nil, chainObj_size]
  rw [if_neg (show ¬ (7 * k + 7 < 1 + (0 + 1) + (7 * k + 5)) by omega)]
  rw [show (7 * k + 7 - (1 + (0 + 1) + (7 * k + 5)) : Nat) = 0 by omega]
  rw [gwyfile_object_read_items, if_pos rfl]
  simp only []
  rw [gwyfile_object_find_duplicate_item]
  simp [chainObj]

/-- One chain level when the inner decode fails: the error propagates
unchanged through the item decode and the item loop. -/
theorem deep_step_err (k F d ms : Nat) (e : GwyfileError) (hF : 1 ≤ F)
    (hk : k ≤ 300) (hms : 12 + 7 * k ≤ ms) (hd : d < 200)
    (hinner : gwyfile_object_fread_internal F (deepBytes k) (7 * k + 5)
      (d + 1) = .error e) :
    gwyfile_object_fread_internal (F + 3) (deepBytes (k + 1)) ms d =
      .error e := by
  obtain ⟨F2, rfl⟩ : ∃ F2, F = F2 + 1 := ⟨F - 1, by omega⟩
  have hlen : (deepBytes k).length = 5 + 7 * k := deepBytes_length k
  have hL : 2 + (deepBytes k).length = 7 * k + 7 := by omega
  have h256 : 7 * k + 7 < 256 ^ 4 := by
    have : (256 : Nat) ^ 4 = 4294967296 := by norm_num
    omega
  rw [gwyfile_object_fread_internal,
    if_neg (show ¬ GWYFILE_MAX_DEPTH ≤ d by rw [GWYFILE_MAX_DEPTH]; omega),
    deepBytes, hL]
  simp only [List.append_assoc, List.cons_append, List.nil_append]
  rw [fread_string_nul _ _ (show ms ≠ 0 by omega)]
  simp only []
  rw [gwyfile_check_size_success _ _ (show 4 ≤ ms - 1 by omega)]
  simp only []
  rw [freadBytes_exact (leBytes 4 (7 * k + 7)) (0 :: 0x6f :: deepBytes k) 4
    (leBytes_length _ _)]
  simp only [leNat_leBytes _ _ h256]
  rw [if_neg (show ¬ (ms - 1 - 4 < 7 * k + 7) by omega)]
  rw [gwyfile_object_read_items, if_neg (show ¬ (7 * k + 7 = 0) by omega)]
  rw [gwyfile_item_fread_internal]
  rw [fread_string_nul _ _ (show (7 * k + 7 : Nat) ≠ 0 by omega)]
  simp only []
  rw [gwyfile_check_size_success _ _ (show 1 ≤ 7 * k + 7 - 1 by omega)]
  simp only []
  norm_num [gwyfile_item_type_is_valid, gwyfile_item_type_is_array]
  rw [hinner]

/-- The chain of k+1 nested objects decodes to `chainObj k` whenever every
level stays below the depth limit. -/
theorem deep_chain_ok (k : Nat) : k ≤ 300 → ∀ fuel d ms,
    3 * k + 2 ≤ fuel → 5 + 7 * k ≤ ms → d + k ≤ 199 →
    gwyfile_object_fread_internal fuel (deepBytes k) ms d =
      .ok (chainObj k, []) := by
  induction k with
  | zero =>
    intro _ fuel d ms hf hms hd
    obtain ⟨f1, rfl⟩ : ∃ f1, fuel = f1 + 1 := ⟨fuel - 1, by omega⟩
    rw [deepBytes, gwyfile_object_fread_internal,
      if_neg (show ¬ GWYFILE_MAX_DEPTH ≤ d by rw [GWYFILE_MAX_DEPTH]; omega)]
    rw [show ((0 : Nat) :: [0, 0, 0, 0] : List Nat) = 0 :: [0, 0, 0, 0]
      from rfl]
    rw [fread_string_nul _ _ (show ms ≠ 0 by omega)]
    simp only []
    rw [gwyfile_check_size_success _ _ (show 4 ≤ ms - 1 by omega)]
    simp only []
    rw [show freadBytes [0, 0, 0, 0] 4 = .ok ([0, 0, 0, 0], []) from rfl]
    simp only []
    rw [show leNat [0, 0, 0, 0] = 0 from rfl]
    rw [if_neg (by omega)]
    obtain ⟨f2, rfl⟩ : ∃ f2, f1 = f2 + 1 := ⟨f1 - 1, by omega⟩
    rw [gwyfile_object_read_items, if_pos rfl]
    simp only []
    rw [gwyfile_object_find_duplicate_item]
    simp [chainObj]
  | succ n ih =>
    intro hk fuel d ms hf hms hd
    obtain ⟨F, rfl⟩ : ∃ F, fuel = F + 3 := ⟨fuel - 3, by omega⟩
    exact deep_step_ok n F d ms (by omega) (by omega) (by omega) (by omega)
      (ih (by omega) F (d + 1) (7 * n + 5) (by omega) (by omega) (by omega))

/-- The chain of k+1 nested objects hits TOO_DEEP_NESTING when the
innermost object would be entered at depth 200 or more. -/
theorem deep_chain_err (k : Nat) : k ≤ 300 → ∀ fuel d ms,
    3 * k + 2 ≤ fuel → 5 + 7 * k ≤ ms → 200 ≤ d + k →
    gwyfile_object_fread_internal fuel (deepBytes k) ms d =
      .error ⟨.data, .tooDeepNesting⟩ := by
  induction k with
  | zero =>
    intro _ fuel d ms hf hms hd
    obtain ⟨f1, rfl⟩ : ∃ f1, fuel = f1 + 1 := ⟨fuel - 1, by omega⟩
    rw [gwyfile_object_fread_internal,
      if_pos (show GWYFILE_MAX_DEPTH ≤ d by rw [GWYFILE_MAX_DEPTH]; omega)]
  | succ n ih =>
    intro hk fuel d ms hf hms hd
    by_cases hd2 : 200 ≤ d
    · obtain ⟨f1, rfl⟩ : ∃ f1, fuel = f1 + 1 := ⟨fuel - 1, by omega⟩
      rw [gwyfile_object_fread_internal,
        if_pos (show GWYFILE_MAX_DEPTH ≤ d by rw [GWYFILE_MAX_DEPTH]; omega)]
    · obtain ⟨F, rfl⟩ : ∃ F, fuel = F + 3 := ⟨fuel - 3, by omega⟩
      exact deep_step_err n F d ms _ (by omega) (by omega) (by omega)
        (by omega)
        (ih (by omega) F (d + 1) (7 * n + 5) (by omega) (by omega)
          (by omega))

/-- C6: the depth bound is exactly 200 object levels.  Entering any object
at depth ≥ MAX_DEPTH = 200 fails immediately with TOO_DEEP_NESTING in
domain DATA; the wire chain of 201 nested objects (`deepBytes 200`) fails
with TOO_DEEP_NESTING under `gwyfile_object_fread`, while the chain of 200
nested objects (`deepBytes 199`) decodes without any error.  Items sit at
depth+1 of their object and a wrapped object reuses its item's depth, so
each object level costs exactly one depth unit. -/
theorem depth_limit_boundary :
    (∀ fuel stream ms d, 200 ≤ d → 1 ≤ fuel →
      gwyfile_object_fread_internal fuel stream ms d =
        .error ⟨.data, .tooDeepNesting⟩)
    ∧ gwyfile_object_fread (deepBytes 200) 100000 =
        .error ⟨.data, .tooDeepNesting⟩
    ∧ gwyfile_object_fread (deepBytes 199) 100000 =
        .ok (chainObj 199, []) := by
  refine ⟨?_, ?_, ?_⟩
  · intro fuel stream ms d hd hf
    obtain ⟨f1, rfl⟩ : ∃ f1, fuel = f1 + 1 := ⟨fuel - 1, by omega⟩
    rw [gwyfile_object_fread_internal,
      if_pos (show GWYFILE_MAX_DEPTH ≤ d by rw [GWYFILE_MAX_DEPTH]; omega)]
  · rw [gwyfile_object_fread]
    exact deep_chain_err 200 (by norm_num) _ _ _
      (by norm_num [adequateFuel]) (by norm_num) (by norm_num)
  · rw [gwyfile_object_fread]
    exact deep_chain_ok 199 (by norm_num) _ _ _
      (by norm_num [adequateFuel]) (by norm_num) (by norm_num)

/-- Witness for `depth_limit_boundary` at a concrete over-deep call. -/
theorem depth_limit_boundary_witness :
    gwyfile_object_fread_internal 1 [0] 5 200 =
      .error ⟨.data, .tooDeepNesting⟩ :=
  depth_limit_boundary.1 1 [0] 5 200 (by norm_num) (by norm_num)

/-!
Characterization of the OBJECT_SIZE failure of the serializer.  The check in
`gwyfile_object_fwrite` compares `data_size` against
`0xffffffff - 4 - name_len`, i.e. it requires the whole encoded object
(name + nul + length prefix + payload) to take at most 2^32 bytes - NOT
merely `data_size ≤ 0xffffffff` as the spec sentence says.
-/

mutual

/-- The object itself and every nested object pass the
`gwyfile_object_fwrite` size check. -/
def GwyfileObject.sizesFit : GwyfileObject → Bool
  | .mk name ds items =>
    !(objectSizeThreshold name.length < ds) && itemsSizesFit items

def itemsSizesFit : List GwyfileItem → Bool
  | [] => true
  | it :: rest => it.sizesFit && itemsSizesFit rest

def GwyfileItem.sizesFit : GwyfileItem → Bool
  | .mk _ _ d =>
    match d with
    | .object o => o.sizesFit
    | .objectArray v => objectsSizesFit v
    | _ => true

def objectsSizesFit : List GwyfileObject → Bool
  | [] => true
  | o :: rest => o.sizesFit && objectsSizesFit rest

end

theorem bool_false_or_true (b : Bool) : b = false ∨ b = true := by
  cases b
  · exact Or.inl rfl
  · exact Or.inr rfl

mutual

theorem object_fwrite_sizesFit (o : GwyfileObject) :
    ((∃ bs, gwyfile_object_fwrite o = .ok bs) ↔ o.sizesFit = true) ∧
    (gwyfile_object_fwrite o = .error ⟨.data, .objectSize⟩ ↔
      o.sizesFit = false) := by
  match o with
  | .mk name ds items =>
    have hitems := items_fwrite_sizesFit items
    rw [gwyfile_object_fwrite, GwyfileObject.sizesFit]
    by_cases hth : objectSizeThreshold name.length < ds
    · rw [if_pos hth]
      simp [hth]
    · rw [if_neg hth]
      cases h : gwyfile_items_fwrite items with
      | error e =>
        have hfit : itemsSizesFit items = false := by
          rcases bool_false_or_true (itemsSizesFit items) with hf | ht
          · exact hf
          · obtain ⟨bs, hbs⟩ := hitems.1.mpr ht
            rw [hbs] at h
            exact absurd h (by simp)
        have herr := hitems.2.mpr hfit
        rw [herr] at h
        injection h with h
        subst h
        simp [hth, hfit]
      | ok bs =>
        have hfit : itemsSizesFit items = true := by
          rcases bool_false_or_true (itemsSizesFit items) with hf | ht
          · rw [hitems.2.mpr hf] at h
            exact absurd h (by simp)
          · exact ht
        simp [hth, hfit]

theorem items_fwrite_sizesFit (items : List GwyfileItem) :
    ((∃ bs, gwyfile_items_fwrite items = .ok bs) ↔
      itemsSizesFit items = true) ∧
    (gwyfile_items_fwrite items = .error ⟨.data, .objectSize⟩ ↔
      itemsSizesFit items = false) := by
  match items with
  | [] => simp [gwyfile_items_fwrite, itemsSizesFit]
  | it :: rest =>
    have h1 := item_fwrite_sizesFit it
    have h2 := items_fwrite_sizesFit rest
    rw [gwyfile_items_fwrite, itemsSizesFit]
    cases hh : gwyfile_item_fwrite it with
    | error e =>
      have hfit : it.sizesFit = false := by
        rcases bool_false_or_true it.sizesFit with hf | ht
        · exact hf
        · obtain ⟨bs, hbs⟩ := h1.1.mpr ht
          rw [hbs] at hh
          exact absurd hh (by simp)
      have herr := h1.2.mpr hfit
      rw [herr] at hh
      injection hh with hh
      subst hh
      simp [hfit]
    | ok bs =>
      have hfit : it.sizesFit = true := by
        rcases bool_false_or_true it.sizesFit with hf | ht
        · rw [h1.2.mpr hf] at hh
          exact absurd hh (by simp)
        · exact ht
      cases hh2 : gwyfile_items_fwrite rest with
      | error e =>
        have hfit2 : itemsSizesFit rest = false := by
          rcases bool_false_or_true (itemsSizesFit rest) with hf | ht
          · exact hf
          · obtain ⟨bs2, hbs2⟩ := h2.1.mpr ht
            rw [hbs2] at hh2
            exact absurd hh2 (by simp)
        have herr := h2.2.mpr hfit2
        rw [herr] at hh2
        injection hh2 with hh2
        subst hh2
        simp [hfit, hfit2]
      | ok bs2 =>
        have hfit2 : itemsSizesFit rest = true := by
          rcases bool_false_or_true (itemsSizesFit rest) with hf | ht
          · rw [h2.2.mpr hf] at hh2
            exact absurd hh2 (by simp)
          · exact ht
        simp [hfit, hfit2]

theorem item_fwrite_sizesFit (it : GwyfileItem) :
    ((∃ bs, gwyfile_item_fwrite it = .ok bs) ↔ it.sizesFit = true) ∧
    (gwyfile_item_fwrite it = .error ⟨.data, .objectSize⟩ ↔
      it.sizesFit = false) := by
  match it with
  | .mk name ds d =>
    cases d with
    | object o =>
      rw [gwyfile_item_fwrite, GwyfileItem.sizesFit]
      have ho := object_fwrite_sizesFit o
      cases hh : gwyfile_object_fwrite o with
      | error e =>
        have hfit : o.sizesFit = false := by
          rcases bool_false_or_true o.sizesFit with hf | ht
          · exact hf
          · obtain ⟨bs, hbs⟩ := ho.1.mpr ht
            rw [hbs] at hh
            exact absurd hh (by simp)
        have herr := ho.2.mpr hfit
        rw [herr] at hh
        injection hh with hh
        subst hh
        simp [hfit]
      | ok bs =>
        have hfit : o.sizesFit = true := by
          rcases bool_false_or_true o.sizesFit with hf | ht
          · rw [ho.2.mpr hf] at hh
            exact absurd hh (by simp)
          · exact ht
        simp [hfit]
    | objectArray v =>
      rw [gwyfile_item_fwrite, GwyfileItem.sizesFit]
      have hv := objects_fwrite_sizesFit v
      cases hh : gwyfile_objects_fwrite v with
      | error e =>
        have hfit : objectsSizesFit v = false := by
          rcases bool_false_or_true (objectsSizesFit v) with hf | ht
          · exact hf
          · obtain ⟨bs, hbs⟩ := hv.1.mpr ht
            rw [hbs] at hh
            exact absurd hh (by simp)
        have herr := hv.2.mpr hfit
        rw [herr] at hh
        injection hh with hh
        subst hh
        simp [hfit]
      | ok bs =>
        have hfit : objectsSizesFit v = true := by
          rcases bool_false_or_true (objectsSizesFit v) with hf | ht
          · rw [hv.2.mpr hf] at hh
            exact absurd hh (by simp)
          · exact ht
        simp [hfit]
    | bool v => simp [gwyfile_item_fwrite, GwyfileItem.sizesFit]
    | char v => simp [gwyfile_item_fwrite, GwyfileItem.sizesFit]
    | int32 v => simp [gwyfile_item_fwrite, GwyfileItem.sizesFit]
    | int64 v => simp [gwyfile_item_fwrite, GwyfileItem.sizesFit]
    | double v => simp [gwyfile_item_fwrite, GwyfileItem.sizesFit]
    | string v => simp [gwyfile_item_fwrite, GwyfileItem.sizesFit]
    | charArray v => simp [gwyfile_item_fwrite, GwyfileItem.sizesFit]
    | int32Array v => simp [gwyfile_item_fwrite, GwyfileItem.sizesFit]
    | int64Array v => simp [gwyfile_item_fwrite, GwyfileItem.sizesFit]
    | doubleArray v => simp [gwyfile_item_fwrite, GwyfileItem.sizesFit]
    | stringArray v => simp [gwyfile_item_fwrite, GwyfileItem.sizesFit]

theorem objects_fwrite_sizesFit (os : List GwyfileObject) :
    ((∃ bs, gwyfile_objects_fwrite os = .ok bs) ↔
      objectsSizesFit os = true) ∧
    (gwyfile_objects_fwrite os = .error ⟨.data, .objectSize⟩ ↔
      objectsSizesFit os = false) := by
  match os with
  | [] => simp [gwyfile_objects_fwrite, objectsSizesFit]
  | o :: rest =>
    have h1 := object_fwrite_sizesFit o
    have h2 := objects_fwrite_sizesFit rest
    rw [gwyfile_objects_fwrite, objectsSizesFit]
    cases hh : gwyfile_object_fwrite o with
    | error e =>
      have hfit : o.sizesFit = false := by
        rcases bool_false_or_true o.sizesFit with hf | ht
        · exact hf
        · obtain ⟨bs, hbs⟩ := h1.1.mpr ht
          rw [hbs] at hh
          exact absurd hh (by simp)
      have herr := h1.2.mpr hfit
      rw [herr] at hh
      injection hh with hh
      subst hh
      simp [hfit]
    | ok bs =>
      have hfit : o.sizesFit = true := by
        rcases bool_false_or_true o.sizesFit with hf | ht
        · rw [h1.2.mpr hf] at hh
          exact absurd hh (by simp)
        · exact ht
      cases hh2 : gwyfile_objects_fwrite rest with
      | error e =>
        have hfit2 : objectsSizesFit rest = false := by
          rcases bool_false_or_true (objectsSizesFit rest) with hf | ht
          · exact hf
          · obtain ⟨bs2, hbs2⟩ := h2.1.mpr ht
            rw [hbs2] at hh2
            exact absurd hh2 (by simp)
        have herr := h2.2.mpr hfit2
        rw [herr] at hh2
        injection hh2 with hh2
        subst hh2
        simp [hfit, hfit2]
      | ok bs2 =>
        have hfit2 : objectsSizesFit rest = true := by
          rcases bool_false_or_true (objectsSizesFit rest) with hf | ht
          · rw [h2.2.mpr hf] at hh2
            exact absurd hh2 (by simp)
          · exact ht
        simp [hfit, hfit2]

end

/-- A well-formed object (its `sizeOk` accounting invariant holds) whose
payload `data_size = 0xfffffffb` is at most `0xffffffff`, yet
`gwyfile_object_fwrite` rejects it: its name "T" plus nul plus the 4-byte
length prefix push the total past 2^32. -/
def c7Object : GwyfileObject :=
  .mk [0x54] 0xfffffffb
    [.mk [0x61] 0xfffffff8 (.charArray (List.replicate 0xfffffff4 0))]

/-- C7 (counterexample): the claim says the OBJECT_SIZE check passes for
every object whose payload `data_size` is at most `0xFFFFFFFF`, but
`c7Object` has `data_size = 0xfffffffb ≤ 0xffffffff`, satisfies the size
accounting invariant, and `gwyfile_object_fwrite` still fails with
OBJECT_SIZE in domain DATA: the actual threshold in the source is
`0xffffffff - sizeof(uint32_t) - name_len`, not `0xffffffff`. -/
theorem object_size_claimed_threshold_wrong :
    c7Object.sizeOk = true ∧
    c7Object.data_size ≤ 0xffffffff ∧
    gwyfile_object_fwrite c7Object = .error ⟨.data, .objectSize⟩ := by
  refine ⟨?_, ?_, ?_⟩
  · simp only [c7Object, GwyfileObject.sizeOk, itemsSizeOk, GwyfileItem.sizeOk,
      itemsSizeSum, GwyfileItem.size, List.length_replicate, List.length_cons,
      List.length_nil, Bool.and_true, Bool.true_and]
    norm_num
  · simp only [c7Object, GwyfileObject.data_size]
    norm_num
  · rw [c7Object, gwyfile_object_fwrite, if_pos]
    norm_num [objectSizeThreshold]

/-- C7 (amended): `gwyfile_object_fwrite` fails with OBJECT_SIZE in domain
DATA if and only if the object's own `data_size` exceeds
`0xffffffff - sizeof(uint32_t) - name_len` or some nested object's does
(the `itemsSizesFit` part); otherwise the check passes everywhere and
encoding succeeds. Stated for names up to `0xfffffffb` bytes, where the
`size_t` threshold expression does not wrap. -/
theorem object_size_check_threshold (name : List Nat) (ds : Nat)
    (items : List GwyfileItem) (hname : name.length ≤ 0xfffffffb) :
    (gwyfile_object_fwrite (.mk name ds items) =
        .error ⟨.data, .objectSize⟩ ↔
      0xffffffff - 4 - name.length < ds ∨ itemsSizesFit items = false) ∧
    ((∃ bs, gwyfile_object_fwrite (.mk name ds items) = .ok bs) ↔
      ds ≤ 0xffffffff - 4 - name.length ∧ itemsSizesFit items = true) := by
  have hthr : objectSizeThreshold name.length = 0xffffffff - 4 - name.length := by
    rw [objectSizeThreshold]
    omega
  have h := object_fwrite_sizesFit (.mk name ds items)
  rw [GwyfileObject.sizesFit, hthr] at h
  constructor
  · rw [h.2]
    cases hi : itemsSizesFit items
    · simp
    · simp [decide_eq_false_iff_not]
  · rw [h.1]
    cases hi : itemsSizesFit items
    · simp
    · simp [decide_eq_true_eq]

/-!
Checker analysis for the boolean-semantics claim.  `specObjectViolation`
and friends are SPEC-side definitions: they follow the spec's words "the
tree contains a violation in the flag-selected categories" (name not valid
UTF-8 under VALIDITY, name not an identifier / empty under WARNING, string
payloads not valid UTF-8 and doubles not finite under VALIDITY, recursing
into object payloads), to be compared with the checker translated from the
source above.
-/

/-- Spec-side payload violation: a string payload that is not valid UTF-8
or a double payload that is NaN or infinite. -/
def specPayloadViolation : GwyfileItemData → Bool
  | .string v => !gwyfile_is_valid_utf8 v
  | .stringArray v => !v.all gwyfile_is_valid_utf8
  | .double v => !gwyfile_double_isnormal v
  | .doubleArray v => !v.all gwyfile_double_isnormal
  | _ => false

mutual

def specObjectViolation : GwyfileObject → Nat → Bool
  | .mk name _ items, flags =>
    (decide (flags &&& GWYFILE_CHECK_FLAG_VALIDITY ≠ 0) &&
      !gwyfile_is_valid_utf8 name) ||
    (decide (flags &&& GWYFILE_CHECK_FLAG_WARNING ≠ 0) &&
      !gwyfile_is_valid_identifier name) ||
    specItemsViolation items flags

def specItemsViolation : List GwyfileItem → Nat → Bool
  | [], _ => false
  | it :: rest, flags =>
    specItemViolation it flags || specItemsViolation rest flags

def specItemViolation : GwyfileItem → Nat → Bool
  | .mk name _ d, flags =>
    (decide (flags &&& GWYFILE_CHECK_FLAG_VALIDITY ≠ 0) &&
      !gwyfile_is_valid_utf8 name) ||
    (decide (flags &&& GWYFILE_CHECK_FLAG_WARNING ≠ 0) && name.isEmpty) ||
    (decide (flags &&& GWYFILE_CHECK_FLAG_VALIDITY ≠ 0) &&
      specPayloadViolation d) ||
    specChildrenViolation d flags

def specChildrenViolation : GwyfileItemData → Nat → Bool
  | .object o, flags => specObjectViolation o flags
  | .objectArray v, flags => specObjectsViolation v flags
  | _, _ => false

def specObjectsViolation : List GwyfileObject → Nat → Bool
  | [], _ => false
  | o :: rest, flags =>
    specObjectViolation o flags || specObjectsViolation rest flags

end

theorem check_valid_utf8_none (s : List Nat) (c : GwyfileCheckCode) :
    gwyfile_check_valid_utf8 s c none = (gwyfile_is_valid_utf8 s, none) := by
  rw [gwyfile_check_valid_utf8]
  cases h : gwyfile_is_valid_utf8 s <;> simp [h]

theorem check_valid_utf8_some (s : List Nat) (c : GwyfileCheckCode)
    (l : List GwyfileCheckError) :
    gwyfile_check_valid_utf8 s c (some l) =
      (gwyfile_is_valid_utf8 s,
       some (l ++ if gwyfile_is_valid_utf8 s then [] else [⟨.validity, c⟩])) := by
  rw [gwyfile_check_valid_utf8]
  cases h : gwyfile_is_valid_utf8 s <;> simp [h]

theorem check_valid_identifier_none (s : List Nat) :
    gwyfile_check_valid_identifier s none =
      (gwyfile_is_valid_identifier s, none) := by
  rw [gwyfile_check_valid_identifier]
  cases h : gwyfile_is_valid_identifier s <;> simp [h]

theorem check_valid_identifier_some (s : List Nat)
    (l : List GwyfileCheckError) :
    gwyfile_check_valid_identifier s (some l) =
      (gwyfile_is_valid_identifier s,
       some (l ++ if gwyfile_is_valid_identifier s then []
                  else [⟨.warning, .typeIdentifier⟩])) := by
  rw [gwyfile_check_valid_identifier]
  cases h : gwyfile_is_valid_identifier s <;> simp [h]

theorem check_nonempty_name_none (s : List Nat) :
    gwyfile_check_nonempty_name s none = (!s.isEmpty, none) := by
  rw [gwyfile_check_nonempty_name]
  cases s <;> simp

theorem check_nonempty_name_some (s : List Nat)
    (l : List GwyfileCheckError) :
    gwyfile_check_nonempty_name s (some l) =
      (!s.isEmpty,
       some (l ++ if s.isEmpty then [⟨.warning, .emptyName⟩] else [])) := by
  rw [gwyfile_check_nonempty_name]
  cases s <;> simp

theorem check_double_none (bits : Nat) :
    gwyfile_check_double bits none = (gwyfile_double_isnormal bits, none) := by
  rw [gwyfile_check_double]
  cases h : gwyfile_double_isnormal bits <;> simp [h]

theorem check_double_some (bits : Nat) (l : List GwyfileCheckError) :
    gwyfile_check_double bits (some l) =
      (gwyfile_double_isnormal bits,
       some (l ++ if gwyfile_double_isnormal bits then []
                  else [⟨.validity, .invalidDouble⟩])) := by
  rw [gwyfile_check_double]
  cases h : gwyfile_double_isnormal bits <;> simp [h]

theorem check_strings_loop_none (ss : List (List Nat)) :
    gwyfile_check_strings_loop ss none =
      (ss.all gwyfile_is_valid_utf8, none) := by
  induction ss with
  | nil => simp [gwyfile_check_strings_loop]
  | cons s rest ih =>
    rw [gwyfile_check_strings_loop]
    simp only [check_valid_utf8_none]
    cases h : gwyfile_is_valid_utf8 s
    · rw [if_pos (by simp)]
      simp [h]
    · rw [if_neg (by simp)]
      simp [h, ih]

theorem check_strings_loop_some (ss : List (List Nat)) :
    ∀ l : List GwyfileCheckError, ∃ b E,
      gwyfile_check_strings_loop ss (some l) = (b, some (l ++ E)) ∧
      (E = [] ↔ ss.all gwyfile_is_valid_utf8 = true) := by
  induction ss with
  | nil =>
    intro l
    exact ⟨true, [], by simp [gwyfile_check_strings_loop], by simp⟩
  | cons s rest ih =>
    intro l
    obtain ⟨b, E, hE, hiff⟩ :=
      ih (l ++ if gwyfile_is_valid_utf8 s then []
               else [⟨.validity, .invalidUtf8String⟩])
    refine ⟨b, (if gwyfile_is_valid_utf8 s then []
                else [⟨.validity, .invalidUtf8String⟩]) ++ E, ?_, ?_⟩
    · rw [gwyfile_check_strings_loop]
      simp only [check_valid_utf8_some]
      rw [if_neg (by simp)]
      rw [hE, List.append_assoc]
    · cases h : gwyfile_is_valid_utf8 s
      · simp [h]
      · simp [h, hiff]

theorem check_doubles_loop_none (vs : List Nat) :
    gwyfile_check_doubles_loop vs none =
      (vs.all gwyfile_double_isnormal, none) := by
  induction vs with
  | nil => simp [gwyfile_check_doubles_loop]
  | cons v rest ih =>
    rw [gwyfile_check_doubles_loop]
    simp only [check_double_none]
    cases h : gwyfile_double_isnormal v
    · rw [if_pos (by simp)]
      simp [h]
    · rw [if_neg (by simp)]
      simp [h, ih]

theorem check_doubles_loop_some (vs : List Nat) :
    ∀ l : List GwyfileCheckError, ∃ b E,
      gwyfile_check_doubles_loop vs (some l) = (b, some (l ++ E)) ∧
      (E = [] ↔ vs.all gwyfile_double_isnormal = true) := by
  induction vs with
  | nil =>
    intro l
    exact ⟨true, [], by simp [gwyfile_check_doubles_loop], by simp⟩
  | cons v rest ih =>
    intro l
    obtain ⟨b, E, hE, hiff⟩ :=
      ih (l ++ if gwyfile_double_isnormal v then []
               else [⟨.validity, .invalidDouble⟩])
    refine ⟨b, (if gwyfile_double_isnormal v then []
                else [⟨.validity, .invalidDouble⟩]) ++ E, ?_, ?_⟩
    · rw [gwyfile_check_doubles_loop]
      simp only [check_double_some]
      rw [if_neg (by simp)]
      rw [hE, List.append_assoc]
    · cases h : gwyfile_double_isnormal v
      · simp [h]
      · simp [h, hiff]

theorem check_item_payload_none (d : GwyfileItemData) :
    gwyfile_check_item_payload d none = (!specPayloadViolation d, none) := by
  cases d <;> simp [gwyfile_check_item_payload, specPayloadViolation,
    check_valid_utf8_none, check_strings_loop_none, check_double_none,
    check_doubles_loop_none]

set_option maxHeartbeats 2000000 in
mutual

/-- NULL-errlist mode: the traversal returns exactly the complement of the
spec-side violation predicate (first violation short-circuits). -/
theorem check_object_internal_none (o : GwyfileObject) (flags : Nat) :
    gwyfile_check_object_internal o flags none =
      (!specObjectViolation o flags, none) := by
  match o with
  | .mk name ds items =>
    have hitems := check_items_loop_none items flags
    rw [gwyfile_check_object_internal, specObjectViolation]
    by_cases hv : flags &&& GWYFILE_CHECK_FLAG_VALIDITY ≠ 0 <;>
      by_cases hw : flags &&& GWYFILE_CHECK_FLAG_WARNING ≠ 0 <;>
        cases hu : gwyfile_is_valid_utf8 name <;>
          cases hi : gwyfile_is_valid_identifier name <;>
            cases hl : specItemsViolation items flags <;>
              simp [hv, hw, hu, hi, hl, check_valid_utf8_none,
                check_valid_identifier_none, hitems, errlistLen]

theorem check_items_loop_none (items : List GwyfileItem) (flags : Nat) :
    gwyfile_check_items_loop items flags none =
      (!specItemsViolation items flags, none) := by
  match items with
  | [] => simp [gwyfile_check_items_loop, specItemsViolation]
  | it :: rest =>
    have h1 := check_item_internal_none it flags
    have h2 := check_items_loop_none rest flags
    rw [gwyfile_check_items_loop, specItemsViolation]
    cases hv : specItemViolation it flags <;>
      cases hr : specItemsViolation rest flags <;>
        simp [h1, h2, hv, hr]

theorem check_item_children_none (d : GwyfileItemData) (flags : Nat) :
    gwyfile_check_item_children d flags none =
      (!specChildrenViolation d flags, none) := by
  cases d with
  | object o =>
    have h := check_object_internal_none o flags
    simp [gwyfile_check_item_children, specChildrenViolation, h]
  | objectArray v =>
    have h := check_objects_loop_none v flags
    simp [gwyfile_check_item_children, specChildrenViolation, h]
  | bool v => simp [gwyfile_check_item_children, specChildrenViolation]
  | char v => simp [gwyfile_check_item_children, specChildrenViolation]
  | int32 v => simp [gwyfile_check_item_children, specChildrenViolation]
  | int64 v => simp [gwyfile_check_item_children, specChildrenViolation]
  | double v => simp [gwyfile_check_item_children, specChildrenViolation]
  | string v => simp [gwyfile_check_item_children, specChildrenViolation]
  | charArray v => simp [gwyfile_check_item_children, specChildrenViolation]
  | int32Array v => simp [gwyfile_check_item_children, specChildrenViolation]
  | int64Array v => simp [gwyfile_check_item_children, specChildrenViolation]
  | doubleArray v => simp [gwyfile_check_item_children, specChildrenViolation]
  | stringArray v => simp [gwyfile_check_item_children, specChildrenViolation]

theorem check_item_internal_none (it : GwyfileItem) (flags : Nat) :
    gwyfile_check_item_internal it flags none =
      (!specItemViolation it flags, none) := by
  match it with
  | .mk name ds d =>
    have hch := check_item_children_none d flags
    rw [gwyfile_check_item_internal, specItemViolation]
    by_cases hv : flags &&& GWYFILE_CHECK_FLAG_VALIDITY ≠ 0 <;>
      by_cases hw : flags &&& GWYFILE_CHECK_FLAG_WARNING ≠ 0 <;>
        cases hu : gwyfile_is_valid_utf8 name <;>
          cases hn : name.isEmpty <;>
            cases hp : specPayloadViolation d <;>
              cases hc : specChildrenViolation d flags <;>
                simp [hv, hw, hu, hn, hp, hc, hch, check_valid_utf8_none,
                  check_nonempty_name_none, check_item_payload_none,
                  errlistLen]

theorem check_objects_loop_none (os : List GwyfileObject) (flags : Nat) :
    gwyfile_check_objects_loop os flags none =
      (!specObjectsViolation os flags, none) := by
  match os with
  | [] => simp [gwyfile_check_objects_loop, specObjectsViolation]
  | o :: rest =>
    have h1 := check_object_internal_none o flags
    have h2 := check_objects_loop_none rest flags
    rw [gwyfile_check_objects_loop, specObjectsViolation]
    cases hv : specObjectViolation o flags <;>
      cases hr : specObjectsViolation rest flags <;>
        simp [h1, h2, hv, hr]

end

theorem errlistLen_decide (l E : List GwyfileCheckError) :
    decide (errlistLen (some (l ++ E)) = errlistLen (some l)) =
      decide (E = []) := by
  cases E with
  | nil => simp [errlistLen]
  | cons e es =>
    have h : (l ++ e :: es).length ≠ l.length := by
      simp only [List.length_append, List.length_cons]
      omega
    simp [errlistLen, h]

theorem check_strings_loop_acc (ss : List (List Nat)) :
    ∃ b E, (E = [] ↔ ss.all gwyfile_is_valid_utf8 = true) ∧
      ∀ l : List GwyfileCheckError,
        gwyfile_check_strings_loop ss (some l) = (b, some (l ++ E)) := by
  induction ss with
  | nil =>
    exact ⟨true, [], by simp, fun l => by simp [gwyfile_check_strings_loop]⟩
  | cons s rest ih =>
    obtain ⟨b, E, hiff, hE⟩ := ih
    refine ⟨b, (if gwyfile_is_valid_utf8 s then []
                else [⟨.validity, .invalidUtf8String⟩]) ++ E, ?_, fun l => ?_⟩
    · cases h : gwyfile_is_valid_utf8 s <;> simp [h, hiff]
    · rw [gwyfile_check_strings_loop]
      simp only [check_valid_utf8_some]
      rw [if_neg (by simp)]
      rw [hE, List.append_assoc]

theorem check_doubles_loop_acc (vs : List Nat) :
    ∃ b E, (E = [] ↔ vs.all gwyfile_double_isnormal = true) ∧
      ∀ l : List GwyfileCheckError,
        gwyfile_check_doubles_loop vs (some l) = (b, some (l ++ E)) := by
  induction vs with
  | nil =>
    exact ⟨true, [], by simp, fun l => by simp [gwyfile_check_doubles_loop]⟩
  | cons v rest ih =>
    obtain ⟨b, E, hiff, hE⟩ := ih
    refine ⟨b, (if gwyfile_double_isnormal v then []
                else [⟨.validity, .invalidDouble⟩]) ++ E, ?_, fun l => ?_⟩
    · cases h : gwyfile_double_isnormal v <;> simp [h, hiff]
    · rw [gwyfile_check_doubles_loop]
      simp only [check_double_some]
      rw [if_neg (by simp)]
      rw [hE, List.append_assoc]

theorem check_item_payload_acc (d : GwyfileItemData) :
    ∃ b E, (E = [] ↔ specPayloadViolation d = false) ∧
      ∀ l : List GwyfileCheckError,
        gwyfile_check_item_payload d (some l) = (b, some (l ++ E)) := by
  cases d with
  | string v =>
    refine ⟨gwyfile_is_valid_utf8 v,
      if gwyfile_is_valid_utf8 v then [] else [⟨.validity, .invalidUtf8String⟩],
      ?_, fun l => ?_⟩
    · cases h : gwyfile_is_valid_utf8 v <;> simp [h, specPayloadViolation]
    · simp [gwyfile_check_item_payload, check_valid_utf8_some]
  | stringArray v =>
    obtain ⟨b, E, hiff, hE⟩ := check_strings_loop_acc v
    refine ⟨b, E, ?_, fun l => by simp [gwyfile_check_item_payload, hE]⟩
    cases h : v.all gwyfile_is_valid_utf8 <;> simp [h, hiff, specPayloadViolation]
  | double v =>
    refine ⟨gwyfile_double_isnormal v,
      if gwyfile_double_isnormal v then [] else [⟨.validity, .invalidDouble⟩],
      ?_, fun l => ?_⟩
    · cases h : gwyfile_double_isnormal v <;> simp [h, specPayloadViolation]
    · simp [gwyfile_check_item_payload, check_double_some]
  | doubleArray v =>
    obtain ⟨b, E, hiff, hE⟩ := check_doubles_loop_acc v
    refine ⟨b, E, ?_, fun l => by simp [gwyfile_check_item_payload, hE]⟩
    cases h : v.all gwyfile_double_isnormal <;> simp [h, hiff, specPayloadViolation]
  | bool v =>
    exact ⟨true, [], by simp [specPayloadViolation],
      fun l => by simp [gwyfile_check_item_payload]⟩
  | char v =>
    exact ⟨true, [], by simp [specPayloadViolation],
      fun l => by simp [gwyfile_check_item_payload]⟩
  | int32 v =>
    exact ⟨true, [], by simp [specPayloadViolation],
      fun l => by simp [gwyfile_check_item_payload]⟩
  | int64 v =>
    exact ⟨true, [], by simp [specPayloadViolation],
      fun l => by simp [gwyfile_check_item_payload]⟩
  | object o =>
    exact ⟨true, [], by simp [specPayloadViolation],
      fun l => by simp [gwyfile_check_item_payload]⟩
  | charArray v =>
    exact ⟨true, [], by simp [specPayloadViolation],
      fun l => by simp [gwyfile_check_item_payload]⟩
  | int32Array v =>
    exact ⟨true, [], by simp [specPayloadViolation],
      fun l => by simp [gwyfile_check_item_payload]⟩
  | int64Array v =>
    exact ⟨true, [], by simp [specPayloadViolation],
      fun l => by simp [gwyfile_check_item_payload]⟩
  | objectArray v =>
    exact ⟨true, [], by simp [specPayloadViolation],
      fun l => by simp [gwyfile_check_item_payload]⟩

set_option maxHeartbeats 2000000 in
mutual

/-- Non-null errlist mode: the traversal appends a batch `E` of errors that
does not depend on the incoming list, and returns true exactly when nothing
was appended, which happens exactly when the spec-side violation predicate
is false. -/
theorem check_object_internal_acc (o : GwyfileObject) (flags : Nat) :
    ∃ E, (E = [] ↔ specObjectViolation o flags = false) ∧
      ∀ l : List GwyfileCheckError,
        gwyfile_check_object_internal o flags (some l) =
          (decide (E = []), some (l ++ E)) := by
  match o with
  | .mk name ds items =>
    obtain ⟨b3, E3, hiff3, h3⟩ := check_items_loop_acc items flags
    refine ⟨(if flags &&& GWYFILE_CHECK_FLAG_VALIDITY ≠ 0 then
               if gwyfile_is_valid_utf8 name then []
               else [⟨.validity, .invalidUtf8Type⟩]
             else []) ++
            ((if flags &&& GWYFILE_CHECK_FLAG_WARNING ≠ 0 then
               if gwyfile_is_valid_identifier name then []
               else [⟨.warning, .typeIdentifier⟩]
             else []) ++ E3), ?_, fun l => ?_⟩
    · rw [specObjectViolation]
      by_cases hv : flags &&& GWYFILE_CHECK_FLAG_VALIDITY ≠ 0 <;>
        by_cases hw : flags &&& GWYFILE_CHECK_FLAG_WARNING ≠ 0 <;>
          cases hu : gwyfile_is_valid_utf8 name <;>
            cases hi : gwyfile_is_valid_identifier name <;>
              cases h3x : specItemsViolation items flags <;>
                simp [hv, hw, hu, hi, h3x, hiff3]
    · rw [gwyfile_check_object_internal]
      by_cases hv : flags &&& GWYFILE_CHECK_FLAG_VALIDITY ≠ 0 <;>
        by_cases hw : flags &&& GWYFILE_CHECK_FLAG_WARNING ≠ 0 <;>
          cases hu : gwyfile_is_valid_utf8 name <;>
            cases hi : gwyfile_is_valid_identifier name <;>
              simp [hv, hw, hu, hi, check_valid_utf8_some,
                check_valid_identifier_some, h3, errlistLen_decide,
                List.append_assoc]

theorem check_items_loop_acc (items : List GwyfileItem) (flags : Nat) :
    ∃ b E, (E = [] ↔ specItemsViolation items flags = false) ∧
      ∀ l : List GwyfileCheckError,
        gwyfile_check_items_loop items flags (some l) = (b, some (l ++ E)) := by
  match items with
  | [] =>
    exact ⟨true, [], by simp [specItemsViolation],
      fun l => by simp [gwyfile_check_items_loop]⟩
  | it :: rest =>
    obtain ⟨E1, hiff1, h1⟩ := check_item_internal_acc it flags
    obtain ⟨b2, E2, hiff2, h2⟩ := check_items_loop_acc rest flags
    refine ⟨b2, E1 ++ E2, ?_, fun l => ?_⟩
    · rw [specItemsViolation]
      cases hA : specItemViolation it flags <;>
        cases hB : specItemsViolation rest flags <;>
          simp [hA, hB, hiff1, hiff2]
    · rw [gwyfile_check_items_loop]
      simp only [h1 l]
      rw [if_neg (by simp)]
      rw [h2, List.append_assoc]

theorem check_item_internal_acc (it : GwyfileItem) (flags : Nat) :
    ∃ E, (E = [] ↔ specItemViolation it flags = false) ∧
      ∀ l : List GwyfileCheckError,
        gwyfile_check_item_internal it flags (some l) =
          (decide (E = []), some (l ++ E)) := by
  match it with
  | .mk name ds d =>
    obtain ⟨bp, Ep, hiffp, hp⟩ := check_item_payload_acc d
    obtain ⟨bc, Ec, hiffc, hc⟩ := check_item_children_acc d flags
    refine ⟨(if flags &&& GWYFILE_CHECK_FLAG_VALIDITY ≠ 0 then
               if gwyfile_is_valid_utf8 name then []
               else [⟨.validity, .invalidUtf8Name⟩]
             else []) ++
            ((if flags &&& GWYFILE_CHECK_FLAG_WARNING ≠ 0 then
               if name.isEmpty then [⟨.warning, .emptyName⟩] else []
             else []) ++
            ((if flags &&& GWYFILE_CHECK_FLAG_VALIDITY ≠ 0 then Ep
              else []) ++ Ec)), ?_, fun l => ?_⟩
    · rw [specItemViolation]
      by_cases hv : flags &&& GWYFILE_CHECK_FLAG_VALIDITY ≠ 0 <;>
        by_cases hw : flags &&& GWYFILE_CHECK_FLAG_WARNING ≠ 0 <;>
          cases hu : gwyfile_is_valid_utf8 name <;>
            cases hn : name.isEmpty <;>
              cases hpv : specPayloadViolation d <;>
                cases hcv : specChildrenViolation d flags <;>
                  simp [hv, hw, hu, hn, hpv, hcv, hiffp, hiffc]
    · rw [gwyfile_check_item_internal]
      by_cases hv : flags &&& GWYFILE_CHECK_FLAG_VALIDITY ≠ 0 <;>
        by_cases hw : flags &&& GWYFILE_CHECK_FLAG_WARNING ≠ 0 <;>
          cases hu : gwyfile_is_valid_utf8 name <;>
            cases hn : name.isEmpty <;>
              simp [hv, hw, hu, hn, check_valid_utf8_some,
                check_nonempty_name_some, hp, hc, errlistLen_decide,
                List.append_assoc]

theorem check_item_children_acc (d : GwyfileItemData) (flags : Nat) :
    ∃ b E, (E = [] ↔ specChildrenViolation d flags = false) ∧
      ∀ l : List GwyfileCheckError,
        gwyfile_check_item_children d flags (some l) = (b, some (l ++ E)) := by
  cases d with
  | object o =>
    obtain ⟨E, hiff, h⟩ := check_object_internal_acc o flags
    exact ⟨decide (E = []), E, by simp [specChildrenViolation, hiff],
      fun l => by simp [gwyfile_check_item_children, h]⟩
  | objectArray v =>
    obtain ⟨b, E, hiff, h⟩ := check_objects_loop_acc v flags
    exact ⟨b, E, by simp [specChildrenViolation, hiff],
      fun l => by simp [gwyfile_check_item_children, h]⟩
  | bool v =>
    exact ⟨true, [], by simp [specChildrenViolation],
      fun l => by simp [gwyfile_check_item_children]⟩
  | char v =>
    exact ⟨true, [], by simp [specChildrenViolation],
      fun l => by simp [gwyfile_check_item_children]⟩
  | int32 v =>
    exact ⟨true, [], by simp [specChildrenViolation],
      fun l => by simp [gwyfile_check_item_children]⟩
  | int64 v =>
    exact ⟨true, [], by simp [specChildrenViolation],
      fun l => by simp [gwyfile_check_item_children]⟩
  | double v =>
    exact ⟨true, [], by simp [specChildrenViolation],
      fun l => by simp [gwyfile_check_item_children]⟩
  | string v =>
    exact ⟨true, [], by simp [specChildrenViolation],
      fun l => by simp [gwyfile_check_item_children]⟩
  | charArray v =>
    exact ⟨true, [], by simp [specChildrenViolation],
      fun l => by simp [gwyfile_check_item_children]⟩
  | int32Array v =>
    exact ⟨true, [], by simp [specChildrenViolation],
      fun l => by simp [gwyfile_check_item_children]⟩
  | int64Array v =>
    exact ⟨true, [], by simp [specChildrenViolation],
      fun l => by simp [gwyfile_check_item_children]⟩
  | doubleArray v =>
    exact ⟨true, [], by simp [specChildrenViolation],
      fun l => by simp [gwyfile_check_item_children]⟩
  | stringArray v =>
    exact ⟨true, [], by simp [specChildrenViolation],
      fun l => by simp [gwyfile_check_item_children]⟩

theorem check_objects_loop_acc (os : List GwyfileObject) (flags : Nat) :
    ∃ b E, (E = [] ↔ specObjectsViolation os flags = false) ∧
      ∀ l : List GwyfileCheckError,
        gwyfile_check_objects_loop os flags (some l) = (b, some (l ++ E)) := by
  match os with
  | [] =>
    exact ⟨true, [], by simp [specObjectsViolation],
      fun l => by simp [gwyfile_check_objects_loop]⟩
  | o :: rest =>
    obtain ⟨E1, hiff1, h1⟩ := check_object_internal_acc o flags
    obtain ⟨b2, E2, hiff2, h2⟩ := check_objects_loop_acc rest flags
    refine ⟨b2, E1 ++ E2, ?_, fun l => ?_⟩
    · rw [specObjectsViolation]
      cases hA : specObjectViolation o flags <;>
        cases hB : specObjectsViolation rest flags <;>
          simp [hA, hB, hiff1, hiff2]
    · rw [gwyfile_check_objects_loop]
      simp only [h1 l]
      rw [if_neg (by simp)]
      rw [h2, List.append_assoc]

end

/-!
With no check category selected, the spec-side violation predicate is
vacuously false (every check atom is guarded by a flag bit).
-/

mutual

theorem specObjectViolation_zero (o : GwyfileObject) :
    specObjectViolation o 0 = false := by
  match o with
  | .mk name ds items =>
    have h := specItemsViolation_zero items
    rw [specObjectViolation]
    simp [GWYFILE_CHECK_FLAG_VALIDITY, GWYFILE_CHECK_FLAG_WARNING, h]

theorem specItemsViolation_zero (items : List GwyfileItem) :
    specItemsViolation items 0 = false := by
  match items with
  | [] => rw [specItemsViolation]
  | it :: rest =>
    have h1 := specItemViolation_zero it
    have h2 := specItemsViolation_zero rest
    rw [specItemsViolation]
    simp [h1, h2]

theorem specItemViolation_zero (it : GwyfileItem) :
    specItemViolation it 0 = false := by
  match it with
  | .mk name ds d =>
    have h := specChildrenViolation_zero d
    rw [specItemViolation]
    simp [GWYFILE_CHECK_FLAG_VALIDITY, GWYFILE_CHECK_FLAG_WARNING, h]

theorem specChildrenViolation_zero (d : GwyfileItemData) :
    specChildrenViolation d 0 = false := by
  match d with
  | .object o =>
    have h := specObjectViolation_zero o
    rw [specChildrenViolation]
    exact h
  | .objectArray v =>
    have h := specObjectsViolation_zero v
    rw [specChildrenViolation]
    exact h
  | .bool v => simp [specChildrenViolation]
  | .char v => simp [specChildrenViolation]
  | .int32 v => simp [specChildrenViolation]
  | .int64 v => simp [specChildrenViolation]
  | .double v => simp [specChildrenViolation]
  | .string v => simp [specChildrenViolation]
  | .charArray v => simp [specChildrenViolation]
  | .int32Array v => simp [specChildrenViolation]
  | .int64Array v => simp [specChildrenViolation]
  | .doubleArray v => simp [specChildrenViolation]
  | .stringArray v => simp [specChildrenViolation]

theorem specObjectsViolation_zero (os : List GwyfileObject) :
    specObjectsViolation os 0 = false := by
  match os with
  | [] => rw [specObjectsViolation]
  | o :: rest =>
    have h1 := specObjectViolation_zero o
    have h2 := specObjectsViolation_zero rest
    rw [specObjectsViolation]
    simp [h1, h2]

end

/-- The object of the spec's UTF-8 example: a one-item tree whose item name
is the invalid two-byte sequence C3 28. -/
def c8Object : GwyfileObject :=
  .mk [0x54] 4 [.mk [0xC3, 0x28] 1 (.bool true)]

/-- C8: `gwyfile_check_object` returns true iff the tree contains no
violation in the flag-selected categories (`specObjectViolation`, a
spec-side predicate), the boolean result is the same with a null and with a
non-null error list, and on the spec's example - a single item named
C3 28 - checking with VALIDITY yields false with exactly one
INVALID_UTF8_NAME error, while checking without that flag yields true. -/
theorem check_object_boolean_semantics :
    (∀ (o : GwyfileObject) (flags : Nat)
       (errlist : Option (List GwyfileCheckError)),
      (gwyfile_check_object o flags errlist).1 =
        !specObjectViolation o (flags &&&
          (GWYFILE_CHECK_FLAG_VALIDITY ||| GWYFILE_CHECK_FLAG_WARNING))) ∧
    (∀ (o : GwyfileObject) (flags : Nat) (l : List GwyfileCheckError),
      (gwyfile_check_object o flags (some l)).1 =
        (gwyfile_check_object o flags none).1) ∧
    gwyfile_check_object c8Object GWYFILE_CHECK_FLAG_VALIDITY (some []) =
      (false, some [⟨.validity, .invalidUtf8Name⟩]) ∧
    gwyfile_check_object c8Object GWYFILE_CHECK_FLAG_VALIDITY none =
      (false, none) ∧
    gwyfile_check_object c8Object GWYFILE_CHECK_FLAG_WARNING (some []) =
      (true, some []) ∧
    gwyfile_check_object c8Object 0 (some []) = (true, some []) := by
  have hmain : ∀ (o : GwyfileObject) (flags : Nat)
      (errlist : Option (List GwyfileCheckError)),
      (gwyfile_check_object o flags errlist).1 =
        !specObjectViolation o (flags &&&
          (GWYFILE_CHECK_FLAG_VALIDITY ||| GWYFILE_CHECK_FLAG_WARNING)) := by
    intro o flags errlist
    rw [gwyfile_check_object]
    by_cases hfl : flags &&&
        (GWYFILE_CHECK_FLAG_VALIDITY ||| GWYFILE_CHECK_FLAG_WARNING) = 0
    · rw [if_pos hfl, hfl, specObjectViolation_zero]
      rfl
    · rw [if_neg hfl]
      cases errlist with
      | none => rw [check_object_internal_none]
      | some l =>
        obtain ⟨E, hiff, h⟩ := check_object_internal_acc o
          (flags &&& (GWYFILE_CHECK_FLAG_VALIDITY ||| GWYFILE_CHECK_FLAG_WARNING))
        rw [h l]
        cases hs : specObjectViolation o
            (flags &&& (GWYFILE_CHECK_FLAG_VALIDITY ||| GWYFILE_CHECK_FLAG_WARNING))
        · simp [hiff.mpr hs]
        · have hne : E ≠ [] := by
            intro hE
            rw [hiff.mp hE] at hs
            exact absurd hs (by simp)
          simp [hne]
  refine ⟨hmain, fun o flags l => ?_, rfl, rfl, rfl, rfl⟩
  rw [hmain, hmain]

/-- Witness for `object_size_check_threshold` at a concrete object. -/
theorem object_size_check_threshold_witness :
    gwyfile_object_fwrite (.mk [0x54] 2 []) = .ok [0x54, 0, 2, 0, 0, 0] := by
  have h := (object_size_check_threshold [0x54] 2 [] (by norm_num)).2.mpr
    ⟨by norm_num, rfl⟩
  obtain ⟨bs, hbs⟩ := h
  rw [hbs]
  have : bs = [0x54, 0, 2, 0, 0, 0] := by
    have := hbs
    rw [gwyfile_object_fwrite] at this
    simp only [gwyfile_items_fwrite] at this
    rw [if_neg (by norm_num [objectSizeThreshold])] at this
    injection this with h2
    exact h2.symm
  rw [this]

/-!
Size-accounting lemmas for the invariant claim: bridges from the recursive
sums and predicates to `List` combinators, and behaviour of the sums under
the list surgery the mutators perform.
-/

theorem itemsSizeSum_eq (l : List GwyfileItem) :
    itemsSizeSum l = (l.map GwyfileItem.size).sum := by
  induction l with
  | nil => rfl
  | cons it rest ih => simp [itemsSizeSum, ih]

theorem itemsSizeOk_eq (l : List GwyfileItem) :
    itemsSizeOk l = l.all GwyfileItem.sizeOk := by
  induction l with
  | nil => rfl
  | cons it rest ih => simp [itemsSizeOk, ih]

theorem objectsSizeOk_eq (l : List GwyfileObject) :
    objectsSizeOk l = l.all GwyfileObject.sizeOk := by
  induction l with
  | nil => rfl
  | cons o rest ih => simp [objectsSizeOk, ih]

theorem itemsSizeSum_append (a b : List GwyfileItem) :
    itemsSizeSum (a ++ b) = itemsSizeSum a + itemsSizeSum b := by
  induction a with
  | nil => simp [itemsSizeSum]
  | cons it rest ih => simp [itemsSizeSum, ih]; omega

theorem itemsSizeOk_append (a b : List GwyfileItem) :
    itemsSizeOk (a ++ b) = (itemsSizeOk a && itemsSizeOk b) := by
  simp [itemsSizeOk_eq]

theorem itemsSizeSum_perm {l l' : List GwyfileItem} (h : l.Perm l') :
    itemsSizeSum l = itemsSizeSum l' := by
  rw [itemsSizeSum_eq, itemsSizeSum_eq]
  exact (h.map GwyfileItem.size).sum_eq

theorem itemsSizeOk_perm {l l' : List GwyfileItem} (h : l.Perm l') :
    itemsSizeOk l = itemsSizeOk l' := by
  rw [itemsSizeOk_eq, itemsSizeOk_eq]
  rw [Bool.eq_iff_iff]
  simp only [List.all_eq_true]
  exact ⟨fun ha x hx => ha x (h.mem_iff.mpr hx),
         fun ha x hx => ha x (h.mem_iff.mp hx)⟩

theorem find_duplicate_fst_perm (items : List GwyfileItem) :
    ((gwyfile_object_find_duplicate_item items).1).Perm items := by
  rw [gwyfile_object_find_duplicate_item]
  split
  · exact List.Perm.refl items
  · simp only []
    rw [sortItemsByName_eq_insertionSort]
    exact List.perm_insertionSort (fun a b => itemNameLe a b) items

theorem readLeArray_length (w count : Nat) (bytes : List Nat) :
    (readLeArray w count bytes).length = count := by
  induction count generalizing bytes with
  | zero => rfl
  | succ k ih => simp [readLeArray, ih]

/-! Decoding establishes the size invariant. -/

set_option maxHeartbeats 8000000 in
mutual

theorem object_fread_internal_sizeOk (fuel : Nat) :
    ∀ stream ms depth o s',
      gwyfile_object_fread_internal fuel stream ms depth = .ok (o, s') →
      o.sizeOk = true := by
  match fuel with
  | 0 =>
    intro stream ms depth o s' h
    exact absurd h (by rw [gwyfile_object_fread_internal]; simp)
  | fuel + 1 =>
    have ihr := read_items_sizeOk fuel
    intro stream ms depth o s' h
    rw [gwyfile_object_fread_internal] at h
    split at h
    · exact absurd h (by simp)
    · split at h
      · exact absurd h (by simp)
      · split at h
        · exact absurd h (by simp)
        · split at h
          · exact absurd h (by simp)
          · simp only [] at h
            split at h
            · exact absurd h (by simp)
            · split at h
              · exact absurd h (by simp)
              · rename_i items s3 hitems
                split at h
                · exact absurd h (by simp)
                · rename_i sorted hdup
                  simp only [Except.ok.injEq, Prod.mk.injEq] at h
                  obtain ⟨h1, -⟩ := h
                  subst h1
                  obtain ⟨hok, hsum⟩ := ihr _ _ _ _ _ hitems
                  have hperm : sorted.Perm items := by
                    have := find_duplicate_fst_perm items
                    rw [hdup] at this
                    exact this
                  rw [GwyfileObject.sizeOk]
                  rw [itemsSizeSum_perm hperm, itemsSizeOk_perm hperm, hsum,
                    hok]
                  simp

theorem read_items_sizeOk (fuel : Nat) :
    ∀ stream remaining depth items s',
      gwyfile_object_read_items fuel stream remaining depth =
        .ok (items, s') →
      itemsSizeOk items = true ∧ itemsSizeSum items = remaining := by
  match fuel with
  | 0 =>
    intro stream remaining depth items s' h
    exact absurd h (by rw [gwyfile_object_read_items]; simp)
  | fuel + 1 =>
    have ihi := item_fread_internal_sizeOk fuel
    have ihr := read_items_sizeOk fuel
    intro stream remaining depth items s' h
    rw [gwyfile_object_read_items] at h
    split at h
    · rename_i h0
      simp only [Except.ok.injEq, Prod.mk.injEq] at h
      obtain ⟨h1, -⟩ := h
      subst h1
      exact ⟨rfl, by rw [h0]; rfl⟩
    · split at h
      · exact absurd h (by simp)
      · rename_i item s1 hitem
        split at h
        · exact absurd h (by simp)
        · rename_i hsz
          split at h
          · exact absurd h (by simp)
          · rename_i items2 s2 hrest
            simp only [Except.ok.injEq, Prod.mk.injEq] at h
            obtain ⟨h1, -⟩ := h
            subst h1
            obtain ⟨hok2, hsum2⟩ := ihr _ _ _ _ _ hrest
            refine ⟨?_, ?_⟩
            · rw [itemsSizeOk, ihi _ _ _ _ _ hitem, hok2]
              rfl
            · rw [itemsSizeSum, hsum2]
              omega

theorem item_fread_internal_sizeOk (fuel : Nat) :
    ∀ stream ms depth it s',
      gwyfile_item_fread_internal fuel stream ms depth = .ok (it, s') →
      it.sizeOk = true := by
  match fuel with
  | 0 =>
    intro stream ms depth it s' h
    exact absurd h (by rw [gwyfile_item_fread_internal]; simp)
  | fuel + 1 =>
    have iho := object_fread_internal_sizeOk fuel
    have iha := object_array_fread_sizeOk fuel
    intro stream ms depth it s' h
    rw [gwyfile_item_fread_internal] at h
    simp only [] at h
    split at h
    · exact absurd h (by simp)
    · split at h
      · exact absurd h (by simp)
      · split at h
        · exact absurd h (by simp)
        · rename_i xs c s2 hfs
          by_cases hval : gwyfile_item_type_is_valid c = false
          · rw [if_pos hval] at h
            exact absurd h (by simp)
          · rw [if_neg hval] at h
            by_cases harr : gwyfile_item_type_is_array c = true
            · rw [if_pos harr] at h
              split at h
              · exact absurd h (by simp)
              · split at h
                · exact absurd h (by simp)
                · rename_i ms3 hms3 ya ab s3 hab
                  by_cases hz : leNat ab = 0
                  · rw [if_pos hz] at h
                    exact absurd h (by simp)
                  · rw [if_neg hz] at h
                    by_cases hC : c = 0x43
                    · rw [if_pos hC] at h
                      split at h
                      · exact absurd h (by simp)
                      · split at h
                        · exact absurd h (by simp)
                        · simp only [Except.ok.injEq, Prod.mk.injEq] at h
                          obtain ⟨h1, -⟩ := h
                          subst h1
                          simp only [GwyfileItem.sizeOk, List.length_append,
                            List.length_take, List.length_replicate,
                            beq_iff_eq]
                          omega
                    · rw [if_neg hC] at h
                      by_cases hI : c = 0x49
                      · rw [if_pos hI] at h
                        by_cases hov : ms3 / 4 < leNat ab
                        · rw [if_pos hov] at h
                          exact absurd h (by simp)
                        · rw [if_neg hov] at h
                          split at h
                          · exact absurd h (by simp)
                          · simp only [Except.ok.injEq, Prod.mk.injEq] at h
                            obtain ⟨h1, -⟩ := h
                            subst h1
                            simp [GwyfileItem.sizeOk, readLeArray_length]
                      · rw [if_neg hI] at h
                        by_cases hQ : c = 0x51
                        · rw [if_pos hQ] at h
                          by_cases hov : ms3 / 8 < leNat ab
                          · rw [if_pos hov] at h
                            exact absurd h (by simp)
                          · rw [if_neg hov] at h
                            split at h
                            · exact absurd h (by simp)
                            · simp only [Except.ok.injEq, Prod.mk.injEq] at h
                              obtain ⟨h1, -⟩ := h
                              subst h1
                              simp [GwyfileItem.sizeOk, readLeArray_length]
                        · rw [if_neg hQ] at h
                          by_cases hD : c = 0x44
                          · rw [if_pos hD] at h
                            by_cases hov : ms3 / 8 < leNat ab
                            · rw [if_pos hov] at h
                              exact absurd h (by simp)
                            · rw [if_neg hov] at h
                              split at h
                              · exact absurd h (by simp)
                              · simp only [Except.ok.injEq,
                                  Prod.mk.injEq] at h
                                obtain ⟨h1, -⟩ := h
                                subst h1
                                simp [GwyfileItem.sizeOk, readLeArray_length]
                          · rw [if_neg hD] at h
                            by_cases hS : c = 0x53
                            · rw [if_pos hS] at h
                              by_cases hov : ms3 < leNat ab
                              · rw [if_pos hov] at h
                                exact absurd h (by simp)
                              · rw [if_neg hov] at h
                                split at h
                                · exact absurd h (by simp)
                                · simp only [Except.ok.injEq,
                                    Prod.mk.injEq] at h
                                  obtain ⟨h1, -⟩ := h
                                  subst h1
                                  simp [GwyfileItem.sizeOk]
                            · rw [if_neg hS] at h
                              by_cases hov : ms3 / 5 < leNat ab
                              · rw [if_pos hov] at h
                                exact absurd h (by simp)
                              · rw [if_neg hov] at h
                                split at h
                                · exact absurd h (by simp)
                                · rename_i objs s4 hobjs
                                  simp only [Except.ok.injEq,
                                    Prod.mk.injEq] at h
                                  obtain ⟨h1, -⟩ := h
                                  subst h1
                                  simp [GwyfileItem.sizeOk,
                                    iha _ _ _ _ _ _ hobjs]
            · rw [if_neg harr] at h
              by_cases hb : c = 0x62
              · rw [if_pos hb] at h
                split at h
                · exact absurd h (by simp)
                · split at h
                  · exact absurd h (by simp)
                  · simp only [Except.ok.injEq, Prod.mk.injEq] at h
                    obtain ⟨h1, -⟩ := h
                    subst h1
                    simp [GwyfileItem.sizeOk]
              · rw [if_neg hb] at h
                by_cases hc : c = 0x63
                · rw [if_pos hc] at h
                  split at h
                  · exact absurd h (by simp)
                  · split at h
                    · exact absurd h (by simp)
                    · simp only [Except.ok.injEq, Prod.mk.injEq] at h
                      obtain ⟨h1, -⟩ := h
                      subst h1
                      simp [GwyfileItem.sizeOk]
                · rw [if_neg hc] at h
                  by_cases hi : c = 0x69
                  · rw [if_pos hi] at h
                    split at h
                    · exact absurd h (by simp)
                    · split at h
                      · exact absurd h (by simp)
                      · simp only [Except.ok.injEq, Prod.mk.injEq] at h
                        obtain ⟨h1, -⟩ := h
                        subst h1
                        simp [GwyfileItem.sizeOk]
                  · rw [if_neg hi] at h
                    by_cases hq : c = 0x71
                    · rw [if_pos hq] at h
                      split at h
                      · exact absurd h (by simp)
                      · split at h
                        · exact absurd h (by simp)
                        · simp only [Except.ok.injEq, Prod.mk.injEq] at h
                          obtain ⟨h1, -⟩ := h
                          subst h1
                          simp [GwyfileItem.sizeOk]
                    · rw [if_neg hq] at h
                      by_cases hd : c = 0x64
                      · rw [if_pos hd] at h
                        split at h
                        · exact absurd h (by simp)
                        · split at h
                          · exact absurd h (by simp)
                          · simp only [Except.ok.injEq, Prod.mk.injEq] at h
                            obtain ⟨h1, -⟩ := h
                            subst h1
                            simp [GwyfileItem.sizeOk]
                      · rw [if_neg hd] at h
                        by_cases hs : c = 0x73
                        · rw [if_pos hs] at h
                          split at h
                          · exact absurd h (by simp)
                          · simp only [Except.ok.injEq, Prod.mk.injEq] at h
                            obtain ⟨h1, -⟩ := h
                            subst h1
                            simp [GwyfileItem.sizeOk]
                        · rw [if_neg hs] at h
                          split at h
                          · exact absurd h (by simp)
                          · rename_i o s3 ho
                            simp only [Except.ok.injEq, Prod.mk.injEq] at h
                            obtain ⟨h1, -⟩ := h
                            subst h1
                            simp [GwyfileItem.sizeOk, iho _ _ _ _ _ ho]

theorem object_array_fread_sizeOk (fuel : Nat) :
    ∀ stream ms count depth objs s',
      gwyfile_object_array_fread fuel stream ms count depth =
        .ok (objs, s') →
      objectsSizeOk objs = true := by
  match fuel with
  | 0 =>
    intro stream ms count depth objs s' h
    exact absurd h (by rw [gwyfile_object_array_fread]; simp)
  | fuel + 1 =>
    have iho := object_fread_internal_sizeOk fuel
    have iha := object_array_fread_sizeOk fuel
    intro stream ms count depth objs s' h
    rw [gwyfile_object_array_fread.eq_def] at h
    simp only [] at h
    split at h
    · simp only [Except.ok.injEq, Prod.mk.injEq] at h
      obtain ⟨h1, -⟩ := h
      subst h1
      rfl
    · split at h
      · exact absurd h (by simp)
      · rename_i o rest ho
        split at h
        · exact absurd h (by simp)
        · split at h
          · exact absurd h (by simp)
          · rename_i objs2 rest2 hrest
            simp only [Except.ok.injEq, Prod.mk.injEq] at h
            obtain ⟨h1, -⟩ := h
            subst h1
            rw [objectsSizeOk, iho _ _ _ _ _ ho, iha _ _ _ _ _ _ hrest]
            rfl

end

/-! The invariant is preserved by every mutator. -/

theorem item_size_eq (it : GwyfileItem) :
    it.size = 1 + it.name.length + 1 + it.data_size := by
  cases it with
  | mk n ds d => rfl

theorem object_size_eq (o : GwyfileObject) :
    o.size = o.name.length + 1 + 4 + o.data_size := by
  cases o with
  | mk n ds items => rfl

theorem object_append_sizeOk (o : GwyfileObject) (it : GwyfileItem)
    (ho : o.sizeOk = true) (hit : it.sizeOk = true) :
    (gwyfile_object_append o it).sizeOk = true := by
  match o with
  | .mk name ds items =>
    rw [gwyfile_object_append, GwyfileObject.sizeOk]
    rw [GwyfileObject.sizeOk] at ho
    simp only [Bool.and_eq_true, beq_iff_eq] at ho
    obtain ⟨hds, hok⟩ := ho
    rw [itemsSizeSum_append, itemsSizeOk_append]
    simp [itemsSizeSum, itemsSizeOk, hds, hok, hit]

theorem object_add_sizeOk (o : GwyfileObject) (it : GwyfileItem)
    (ho : o.sizeOk = true) (hit : it.sizeOk = true) :
    ((gwyfile_object_add o it).1).sizeOk = true := by
  rw [gwyfile_object_add]
  split
  · exact ho
  · exact object_append_sizeOk o it ho hit

theorem itemsSizeOk_iff (l : List GwyfileItem) :
    itemsSizeOk l = true ↔ ∀ x ∈ l, x.sizeOk = true := by
  rw [itemsSizeOk_eq]
  simp [List.all_eq_true]

theorem objectsSizeOk_iff (l : List GwyfileObject) :
    objectsSizeOk l = true ↔ ∀ x ∈ l, x.sizeOk = true := by
  rw [objectsSizeOk_eq]
  simp [List.all_eq_true]

theorem itemsSizeSum_set (items : List GwyfileItem) (i : Nat)
    (x : GwyfileItem) (h : i < items.length) :
    itemsSizeSum (items.set i x) + (items.get ⟨i, h⟩).size =
      itemsSizeSum items + x.size := by
  induction items generalizing i with
  | nil => simp at h
  | cons y rest ih =>
    cases i with
    | zero =>
      simp only [List.set, itemsSizeSum, List.get]
      omega
    | succ j =>
      have hj : j < rest.length := by simpa using h
      simp only [List.set, itemsSizeSum, List.get]
      have := ih j hj
      omega

theorem objectsSizeSum_set (os : List GwyfileObject) (i : Nat)
    (x : GwyfileObject) (h : i < os.length) :
    objectsSizeSum (os.set i x) + (os.get ⟨i, h⟩).size =
      objectsSizeSum os + x.size := by
  induction os generalizing i with
  | nil => simp at h
  | cons y rest ih =>
    cases i with
    | zero =>
      simp only [List.set, objectsSizeSum, List.get]
      omega
    | succ j =>
      have hj : j < rest.length := by simpa using h
      simp only [List.set, objectsSizeSum, List.get]
      have := ih j hj
      omega

theorem size_le_itemsSizeSum (items : List GwyfileItem) (i : Nat)
    (h : i < items.length) :
    (items.get ⟨i, h⟩).size ≤ itemsSizeSum items := by
  induction items generalizing i with
  | nil => simp at h
  | cons y rest ih =>
    cases i with
    | zero =>
      simp only [itemsSizeSum, List.get]
      omega
    | succ j =>
      have hj : j < rest.length := by simpa using h
      have := ih j hj
      simp only [itemsSizeSum, List.get]
      omega

theorem size_le_objectsSizeSum (os : List GwyfileObject) (i : Nat)
    (h : i < os.length) :
    (os.get ⟨i, h⟩).size ≤ objectsSizeSum os := by
  induction os generalizing i with
  | nil => simp at h
  | cons y rest ih =>
    cases i with
    | zero =>
      simp only [objectsSizeSum, List.get]
      omega
    | succ j =>
      have hj : j < rest.length := by simpa using h
      have := ih j hj
      simp only [objectsSizeSum, List.get]
      omega

theorem itemsSizeSum_dropLast (l : List GwyfileItem) (h : l ≠ []) :
    itemsSizeSum l.dropLast + (l.getLast h).size = itemsSizeSum l := by
  conv_rhs => rw [← List.dropLast_append_getLast h]
  rw [itemsSizeSum_append]
  simp [itemsSizeSum]

theorem mem_swapRemoveAt (items : List GwyfileItem) (i : Nat)
    (x : GwyfileItem) (hx : x ∈ swapRemoveAt items i) : x ∈ items := by
  rw [swapRemoveAt] at hx
  split at hx
  · simp at hx
  · rename_i last hl
    have hne : items ≠ [] := by
      intro e
      subst e
      simp at hl
    have hlast : last ∈ items := by
      rw [List.getLast?_eq_getLast items hne] at hl
      injection hl with hl
      rw [← hl]
      exact List.getLast_mem hne
    split at hx
    · have hx2 := (List.dropLast_sublist (items.set i last)).subset hx
      rcases List.mem_or_eq_of_mem_set hx2 with h1 | h2
      · exact h1
      · rw [h2]
        exact hlast
    · exact (List.dropLast_sublist items).subset hx

theorem itemsSizeOk_swapRemoveAt (items : List GwyfileItem) (i : Nat)
    (hok : itemsSizeOk items = true) :
    itemsSizeOk (swapRemoveAt items i) = true := by
  rw [itemsSizeOk_iff] at hok ⊢
  exact fun x hx => hok x (mem_swapRemoveAt items i x hx)

theorem itemsSizeSum_swapRemoveAt (items : List GwyfileItem) (i : Nat)
    (h : i < items.length) :
    itemsSizeSum (swapRemoveAt items i) + (items.get ⟨i, h⟩).size =
      itemsSizeSum items := by
  have hne : items ≠ [] := List.ne_nil_of_length_pos (by omega)
  rw [swapRemoveAt, List.getLast?_eq_getLast items hne]
  simp only []
  split
  · rename_i hlt
    have hi' : i < items.dropLast.length := by
      rw [List.length_dropLast]
      omega
    have hset_eq : (items.set i (items.getLast hne)).dropLast =
        items.dropLast.set i (items.getLast hne) := by
      apply List.ext_getElem
      · simp [List.length_dropLast]
      · intro j h1 h2
        rw [List.getElem_dropLast, List.getElem_set, List.getElem_set,
          List.getElem_dropLast]
    rw [hset_eq]
    have hsum_set := itemsSizeSum_set items.dropLast i (items.getLast hne) hi'
    have hgets : items.dropLast.get ⟨i, hi'⟩ = items.get ⟨i, h⟩ := by
      simp [List.get_eq_getElem, List.getElem_dropLast]
    rw [hgets] at hsum_set
    have hdrop := itemsSizeSum_dropLast items hne
    omega
  · rename_i hge
    have hi2 : i = items.length - 1 := by omega
    subst hi2
    have hgeteq : items.get ⟨items.length - 1, h⟩ = items.getLast hne := by
      rw [List.getLast_eq_getElem, List.get_eq_getElem]
    rw [hgeteq]
    exact itemsSizeSum_dropLast items hne

theorem object_remove_sizeOk (o : GwyfileObject) (name : List Nat)
    (ho : o.sizeOk = true) :
    ((gwyfile_object_remove o name).1).sizeOk = true := by
  match o with
  | .mk oname ds items =>
    rw [gwyfile_object_remove]
    split
    · rename_i hlt
      rw [GwyfileObject.sizeOk] at ho
      simp only [Bool.and_eq_true, beq_iff_eq] at ho
      obtain ⟨hds, hok⟩ := ho
      rw [GwyfileObject.sizeOk]
      simp only [Bool.and_eq_true, beq_iff_eq]
      constructor
      · have hs := itemsSizeSum_swapRemoveAt items
          (gwyfile_object_find items name) hlt
        omega
      · exact itemsSizeOk_swapRemoveAt items _ hok
    · exact ho

theorem object_take_sizeOk (o : GwyfileObject) (name : List Nat)
    (ho : o.sizeOk = true) :
    ((gwyfile_object_take o name).1).sizeOk = true := by
  match o with
  | .mk oname ds items =>
    rw [gwyfile_object_take]
    split
    · rename_i hlt
      rw [GwyfileObject.sizeOk] at ho
      simp only [Bool.and_eq_true, beq_iff_eq] at ho
      obtain ⟨hds, hok⟩ := ho
      rw [GwyfileObject.sizeOk]
      simp only [Bool.and_eq_true, beq_iff_eq]
      constructor
      · have hs := itemsSizeSum_swapRemoveAt items
          (gwyfile_object_find items name) hlt
        omega
      · exact itemsSizeOk_swapRemoveAt items _ hok
    · exact ho

theorem set_bool_sizeOk (it : GwyfileItem) (v : Bool)
    (h : it.sizeOk = true) : (gwyfile_item_set_bool it v).sizeOk = true := by
  match it with
  | .mk n ds d => cases d <;> simp_all [gwyfile_item_set_bool,
      GwyfileItem.sizeOk]

theorem set_char_sizeOk (it : GwyfileItem) (v : Nat)
    (h : it.sizeOk = true) : (gwyfile_item_set_char it v).sizeOk = true := by
  match it with
  | .mk n ds d => cases d <;> simp_all [gwyfile_item_set_char,
      GwyfileItem.sizeOk]

theorem set_int32_sizeOk (it : GwyfileItem) (v : Nat)
    (h : it.sizeOk = true) : (gwyfile_item_set_int32 it v).sizeOk = true := by
  match it with
  | .mk n ds d => cases d <;> simp_all [gwyfile_item_set_int32,
      GwyfileItem.sizeOk]

theorem set_int64_sizeOk (it : GwyfileItem) (v : Nat)
    (h : it.sizeOk = true) : (gwyfile_item_set_int64 it v).sizeOk = true := by
  match it with
  | .mk n ds d => cases d <;> simp_all [gwyfile_item_set_int64,
      GwyfileItem.sizeOk]

theorem set_double_sizeOk (it : GwyfileItem) (v : Nat)
    (h : it.sizeOk = true) : (gwyfile_item_set_double it v).sizeOk = true := by
  match it with
  | .mk n ds d => cases d <;> simp_all [gwyfile_item_set_double,
      GwyfileItem.sizeOk]

theorem set_string_sizeOk (it : GwyfileItem) (v : List Nat)
    (h : it.sizeOk = true) : (gwyfile_item_set_string it v).sizeOk = true := by
  match it with
  | .mk n ds d => cases d <;> simp_all [gwyfile_item_set_string,
      GwyfileItem.sizeOk]

theorem set_object_sizeOk (it : GwyfileItem) (v : GwyfileObject)
    (h : it.sizeOk = true) (hv : v.sizeOk = true) :
    (gwyfile_item_set_object it v).sizeOk = true := by
  match it with
  | .mk n ds d => cases d <;> simp_all [gwyfile_item_set_object,
      GwyfileItem.sizeOk]

theorem set_char_array_sizeOk (it : GwyfileItem) (v : List Nat)
    (h : it.sizeOk = true) :
    (gwyfile_item_set_char_array it v).sizeOk = true := by
  match it with
  | .mk n ds d => cases d <;> simp_all [gwyfile_item_set_char_array,
      GwyfileItem.sizeOk]

theorem set_int32_array_sizeOk (it : GwyfileItem) (v : List Nat)
    (h : it.sizeOk = true) :
    (gwyfile_item_set_int32_array it v).sizeOk = true := by
  match it with
  | .mk n ds d => cases d <;> simp_all [gwyfile_item_set_int32_array,
      GwyfileItem.sizeOk]

theorem set_int64_array_sizeOk (it : GwyfileItem) (v : List Nat)
    (h : it.sizeOk = true) :
    (gwyfile_item_set_int64_array it v).sizeOk = true := by
  match it with
  | .mk n ds d => cases d <;> simp_all [gwyfile_item_set_int64_array,
      GwyfileItem.sizeOk]

theorem set_double_array_sizeOk (it : GwyfileItem) (v : List Nat)
    (h : it.sizeOk = true) :
    (gwyfile_item_set_double_array it v).sizeOk = true := by
  match it with
  | .mk n ds d => cases d <;> simp_all [gwyfile_item_set_double_array,
      GwyfileItem.sizeOk]

theorem set_string_array_sizeOk (it : GwyfileItem) (v : List (List Nat))
    (h : it.sizeOk = true) :
    (gwyfile_item_set_string_array it v).sizeOk = true := by
  match it with
  | .mk n ds d => cases d <;> simp_all [gwyfile_item_set_string_array,
      GwyfileItem.sizeOk]

theorem set_object_array_sizeOk (it : GwyfileItem) (v : List GwyfileObject)
    (h : it.sizeOk = true) (hv : objectsSizeOk v = true) :
    (gwyfile_item_set_object_array it v).sizeOk = true := by
  match it with
  | .mk n ds d => cases d <;> simp_all [gwyfile_item_set_object_array,
      GwyfileItem.sizeOk]

mutual

/-- One step of the upward size propagation: rebuilding an object around a
mutated item keeps the invariant, provided the mutation `f` itself keeps
the item's invariant and name. -/
theorem objectModifyItem_sizeOk (o : GwyfileObject) (i : Nat)
    (path : List Nat) (f : GwyfileItem → GwyfileItem)
    (hf : ∀ x, x.sizeOk = true → (f x).sizeOk = true ∧ (f x).name = x.name)
    (ho : o.sizeOk = true) :
    (objectModifyItem o i path f).sizeOk = true ∧
    (objectModifyItem o i path f).name = o.name := by
  match o with
  | .mk name ds items =>
    rw [objectModifyItem]
    simp only []
    split
    · exact ⟨ho, rfl⟩
    · rename_i old hget
      have hidx : i < items.length := (List.get?_eq_some.mp hget).1
      have hold_eq : items.get ⟨i, hidx⟩ = old := (List.get?_eq_some.mp hget).2
      rw [GwyfileObject.sizeOk] at ho
      simp only [Bool.and_eq_true, beq_iff_eq] at ho
      obtain ⟨hds, hok⟩ := ho
      have hold_ok : old.sizeOk = true := by
        rw [itemsSizeOk_iff] at hok
        exact hok old (List.mem_iff_get.mpr ⟨⟨i, hidx⟩, hold_eq⟩)
      obtain ⟨hnew_ok, hnew_name⟩ := itemModifyAt_sizeOk old path f hf hold_ok
      refine ⟨?_, rfl⟩
      rw [GwyfileObject.sizeOk]
      simp only [Bool.and_eq_true, beq_iff_eq]
      constructor
      · have hsum := itemsSizeSum_set items i (itemModifyAt old path f) hidx
        rw [hold_eq] at hsum
        have hle := size_le_itemsSizeSum items i hidx
        rw [hold_eq] at hle
        have hsz_old := item_size_eq old
        have hsz_new := item_size_eq (itemModifyAt old path f)
        rw [hnew_name] at hsz_new
        omega
      · rw [itemsSizeOk_iff]
        intro x hx
        rcases List.mem_or_eq_of_mem_set hx with h1 | h2
        · rw [itemsSizeOk_iff] at hok
          exact hok x h1
        · rw [h2]
          exact hnew_ok
termination_by (path.length, 1)

/-- The item-level half of the propagation walk. -/
theorem itemModifyAt_sizeOk (it : GwyfileItem) (path : List Nat)
    (f : GwyfileItem → GwyfileItem)
    (hf : ∀ x, x.sizeOk = true → (f x).sizeOk = true ∧ (f x).name = x.name)
    (hit : it.sizeOk = true) :
    (itemModifyAt it path f).sizeOk = true ∧
    (itemModifyAt it path f).name = it.name := by
  match path with
  | [] =>
    rw [itemModifyAt]
    exact ⟨(hf it hit).1, (hf it hit).2⟩
  | j :: rest =>
    match it with
    | .mk n ds (.object o) =>
      rw [itemModifyAt]
      have hov : ds = o.size ∧ o.sizeOk = true := by
        rw [GwyfileItem.sizeOk] at hit
        simp only [Bool.and_eq_true, beq_iff_eq] at hit
        exact hit
      obtain ⟨h1, h2⟩ := objectModifyItem_sizeOk o j rest f hf hov.2
      refine ⟨?_, rfl⟩
      rw [GwyfileItem.sizeOk]
      simp only [Bool.and_eq_true, beq_iff_eq]
      refine ⟨?_, h1⟩
      have hso := object_size_eq o
      have hsn := object_size_eq (objectModifyItem o j rest f)
      rw [h2] at hsn
      have hds := hov.1
      omega
    | .mk n ds (.objectArray v) =>
      cases rest with
      | nil =>
        rw [itemModifyAt]
        exact ⟨hit, rfl⟩
      | cons j2 rest2 =>
        rw [itemModifyAt]
        simp only []
        split
        · exact ⟨hit, rfl⟩
        · rename_i o hget
          have hidx : j < v.length := (List.get?_eq_some.mp hget).1
          have hold_eq : v.get ⟨j, hidx⟩ = o := (List.get?_eq_some.mp hget).2
          rw [GwyfileItem.sizeOk] at hit
          simp only [Bool.and_eq_true, beq_iff_eq] at hit
          obtain ⟨hds, hvok⟩ := hit
          have ho_ok : o.sizeOk = true := by
            rw [objectsSizeOk_iff] at hvok
            exact hvok o (List.mem_iff_get.mpr ⟨⟨j, hidx⟩, hold_eq⟩)
          obtain ⟨h1, h2⟩ := objectModifyItem_sizeOk o j2 rest2 f hf ho_ok
          refine ⟨?_, rfl⟩
          rw [GwyfileItem.sizeOk]
          simp only [Bool.and_eq_true, beq_iff_eq]
          constructor
          · have hsum := objectsSizeSum_set v j
              (objectModifyItem o j2 rest2 f) hidx
            rw [hold_eq] at hsum
            have hle := size_le_objectsSizeSum v j hidx
            rw [hold_eq] at hle
            have hso := object_size_eq o
            have hsn := object_size_eq (objectModifyItem o j2 rest2 f)
            rw [h2] at hsn
            omega
          · rw [objectsSizeOk_iff]
            intro x hx
            rcases List.mem_or_eq_of_mem_set hx with hm | hm
            · rw [objectsSizeOk_iff] at hvok
              exact hvok x hm
            · rw [hm]
              exact h1
    | .mk n ds (.bool v) => simp [itemModifyAt, hit]
    | .mk n ds (.char v) => simp [itemModifyAt, hit]
    | .mk n ds (.int32 v) => simp [itemModifyAt, hit]
    | .mk n ds (.int64 v) => simp [itemModifyAt, hit]
    | .mk n ds (.double v) => simp [itemModifyAt, hit]
    | .mk n ds (.string v) => simp [itemModifyAt, hit]
    | .mk n ds (.charArray v) => simp [itemModifyAt, hit]
    | .mk n ds (.int32Array v) => simp [itemModifyAt, hit]
    | .mk n ds (.int64Array v) => simp [itemModifyAt, hit]
    | .mk n ds (.doubleArray v) => simp [itemModifyAt, hit]
    | .mk n ds (.stringArray v) => simp [itemModifyAt, hit]
termination_by (path.length, 0)

end

/-- C3: the size-accounting invariant - `sizeOk`: every object's
`data_size` equals the sum of `item_size` over its items, and every
object-valued (or object-array-valued) item's `data_size` equals the
wrapped object's total on-wire size - holds for every decoded object and
is preserved by every single mutating operation: append during decoding,
`gwyfile_object_add`, `gwyfile_object_remove`, `gwyfile_object_take`, every
typed setter, and the signed-delta propagation up the owner chain
(`objectModifyItem`/`itemModifyAt`) around any invariant- and
name-preserving leaf mutation. -/
theorem size_invariant_preserved :
    (∀ stream ms o rest,
      gwyfile_object_fread stream ms = .ok (o, rest) → o.sizeOk = true) ∧
    (∀ (o : GwyfileObject) (it : GwyfileItem), o.sizeOk = true →
      it.sizeOk = true → (gwyfile_object_append o it).sizeOk = true) ∧
    (∀ (o : GwyfileObject) (it : GwyfileItem), o.sizeOk = true →
      it.sizeOk = true → ((gwyfile_object_add o it).1).sizeOk = true) ∧
    (∀ (o : GwyfileObject) (name : List Nat), o.sizeOk = true →
      ((gwyfile_object_remove o name).1).sizeOk = true) ∧
    (∀ (o : GwyfileObject) (name : List Nat), o.sizeOk = true →
      ((gwyfile_object_take o name).1).sizeOk = true) ∧
    (∀ it : GwyfileItem, it.sizeOk = true →
      (∀ v, (gwyfile_item_set_bool it v).sizeOk = true) ∧
      (∀ v, (gwyfile_item_set_char it v).sizeOk = true) ∧
      (∀ v, (gwyfile_item_set_int32 it v).sizeOk = true) ∧
      (∀ v, (gwyfile_item_set_int64 it v).sizeOk = true) ∧
      (∀ v, (gwyfile_item_set_double it v).sizeOk = true) ∧
      (∀ v, (gwyfile_item_set_string it v).sizeOk = true) ∧
      (∀ v, v.sizeOk = true →
        (gwyfile_item_set_object it v).sizeOk = true) ∧
      (∀ v, (gwyfile_item_set_char_array it v).sizeOk = true) ∧
      (∀ v, (gwyfile_item_set_int32_array it v).sizeOk = true) ∧
      (∀ v, (gwyfile_item_set_int64_array it v).sizeOk = true) ∧
      (∀ v, (gwyfile_item_set_double_array it v).sizeOk = true) ∧
      (∀ v, (gwyfile_item_set_string_array it v).sizeOk = true) ∧
      (∀ v, objectsSizeOk v = true →
        (gwyfile_item_set_object_array it v).sizeOk = true)) ∧
    (∀ (o : GwyfileObject) (i : Nat) (path : List Nat)
       (f : GwyfileItem → GwyfileItem),
      (∀ x, x.sizeOk = true → (f x).sizeOk = true ∧ (f x).name = x.name) →
      o.sizeOk = true → (objectModifyItem o i path f).sizeOk = true) := by
  refine ⟨?_, object_append_sizeOk, object_add_sizeOk, object_remove_sizeOk,
    object_take_sizeOk, ?_, ?_⟩
  · intro stream ms o rest h
    rw [gwyfile_object_fread] at h
    exact object_fread_internal_sizeOk _ _ _ _ _ _ h
  · intro it hit
    exact ⟨fun v => set_bool_sizeOk it v hit,
      fun v => set_char_sizeOk it v hit,
      fun v => set_int32_sizeOk it v hit,
      fun v => set_int64_sizeOk it v hit,
      fun v => set_double_sizeOk it v hit,
      fun v => set_string_sizeOk it v hit,
      fun v hv => set_object_sizeOk it v hit hv,
      fun v => set_char_array_sizeOk it v hit,
      fun v => set_int32_array_sizeOk it v hit,
      fun v => set_int64_array_sizeOk it v hit,
      fun v => set_double_array_sizeOk it v hit,
      fun v => set_string_array_sizeOk it v hit,
      fun v hv => set_object_array_sizeOk it v hit hv⟩
  · intro o i path f hf ho
    exact (objectModifyItem_sizeOk o i path f hf ho).1

/-- Witness for `size_invariant_preserved` at concrete inputs: an append,
a removal and a path-0 set_bool rewrite on a one-item object. -/
theorem size_invariant_preserved_witness :
    (gwyfile_object_append (.mk [0x54] 0 [])
      (.mk [0x78] 1 (.bool true))).sizeOk = true ∧
    ((gwyfile_object_remove (.mk [0x54] 4 [.mk [0x78] 1 (.bool true)])
      [0x78]).1).sizeOk = true ∧
    (objectModifyItem (.mk [0x54] 4 [.mk [0x78] 1 (.bool true)]) 0 []
      (fun x => gwyfile_item_set_bool x false)).sizeOk = true :=
  ⟨size_invariant_preserved.2.1 _ _ (by rfl) (by rfl),
   size_invariant_preserved.2.2.2.1 _ _ (by rfl),
   size_invariant_preserved.2.2.2.2.2.2 _ 0 []
     (fun x => gwyfile_item_set_bool x false)
     (fun x hx => ⟨set_bool_sizeOk x false hx, by
        cases x with
        | mk n ds d => cases d <;> rfl⟩)
     (by rfl)⟩

end Gwyfile
